import Mathlib

/-!
Shallow embedding of the CHIP-8 interpreter in src/chip8.c.

Conventions of the embedding:
* `uint8_t` values are `Nat`s; stores that can overflow are reduced `% 256`.
* `uint16_t` values are `Nat`s; stores that can overflow are reduced `% 65536`.
* C right shifts and low masks on nonnegative values are embedded as division
  and remainder: `x >> 12` is `x / 4096`, `x & 0x0F` is `x % 16`, `x & 0xFF` is
  `x % 256`, `x & 0x0FFF` is `x % 4096`, `x & 1` is `x % 2`, `x >> 1` is
  `x / 2`, `x << 1` (into a `uint8_t`) is `x * 2 % 256`.
* Arrays (`mem`, `stack`, `v`, `display`) are total functions from indices;
  the interpreter only ever uses the in-range part of them.
* `die(...)`, which ends the process, is embedded as returning `none`;
  curses calls (`clear`, `mvaddch`, `refresh`) only affect the terminal and are
  dropped, while their effect on interpreter state (`display`, `dirty`) is kept.
* `rand()` and `getch()` are external inputs; execution takes the value that
  `rand() % 255` would use as an extra argument `rnd`, and the polled keyboard
  result as an extra argument `pressed`.
-/

/-- Machine state, mirroring `struct CHIP8` in src/chip8.c (the `keymap` string
is kept as a list of character codes). -/
structure CHIP8 where
  mem : Nat → Nat
  stack : Nat → Nat
  pc : Nat
  sp : Nat
  i : Nat
  delay : Nat
  sound : Nat
  v : Nat → Nat
  dirty : Bool
  display : Nat → Nat → Bool
  inspertick : Nat
  keymap : List Nat

/-- Pointwise update of a `Nat`-indexed array. -/
def updateF (f : Nat → Nat) (k x : Nat) : Nat → Nat :=
  fun j => if j = k then x else f j

/-- Pointwise update of the display grid. -/
def updD (d : Nat → Nat → Bool) (r c : Nat) (b : Bool) : Nat → Nat → Bool :=
  fun r' c' => if r' = r ∧ c' = c then b else d r' c'

/-- Write register `k` (array `v` in the C struct). -/
def setV (vm : CHIP8) (k x : Nat) : CHIP8 :=
  { vm with v := updateF vm.v k x }

/-- The C macro `A`: `((inst)>>12)&0x0F`, the high nibble. -/
def nibA (inst : Nat) : Nat := inst / 4096 % 16

/-- The C macro `D`: `(inst)&0x0F`, the low nibble. -/
def nibD (inst : Nat) : Nat := inst % 16

/-- The C macros `B` and `LH`: `(inst)&0x0FF`, the low byte. -/
def lowB (inst : Nat) : Nat := inst % 256

/-- The C macro `X`: `((inst)>>8)&0x0F`. -/
def regX (inst : Nat) : Nat := inst / 256 % 16

/-- The C macro `Y`: `((inst)>>4)&0x0F`. -/
def regY (inst : Nat) : Nat := inst / 16 % 16

/-- The C macro `VAL`: `inst&0x0FFF`. -/
def addrNNN (inst : Nat) : Nat := inst % 4096

/-- Subtraction of `uint8_t` values: `a - b` computed modulo 256. -/
def sub8 (a b : Nat) : Nat := (a + 256 - b % 256) % 256

/-- `isbitset` from src/chip8.c: `(b<<n)&0x80`, i.e. bit `7-n` of byte `b`. -/
def isbitset (n b : Nat) : Bool := (b <<< n) &&& 0x80 != 0

/-- `cls` from src/chip8.c: zero the display and mark it dirty (the curses
`clear()` call is external). -/
def cls (vm : CHIP8) : CHIP8 :=
  { vm with display := fun _ _ => false, dirty := true }

/-- `setpixel` from src/chip8.c: XOR-toggle one pixel, recording a collision in
VF when an on-pixel goes off (the `mvaddch` call is external). -/
def setpixel (vm : CHIP8) (row col : Nat) : CHIP8 :=
  if vm.display row col then
    { vm with v := updateF vm.v 15 1,
              display := updD vm.display row col false,
              dirty := true }
  else
    { vm with display := updD vm.display row col true, dirty := true }

/-- The inner column loop of `draw`:
`for (col = 0; col < 8 && x + col < 64; col++) if (isbitset(col, b)) setpixel`.
The first argument counts the remaining iterations allowed by `col < 8`
(initially 8); `col` is the current column index. -/
def drawColsAux (x y b : Nat) : Nat → Nat → CHIP8 → CHIP8
  | 0, _, vm => vm
  | rem + 1, col, vm =>
    if x + col < 64 then
      drawColsAux x y b rem (col + 1)
        (if isbitset col b then setpixel vm y (x + col) else vm)
    else vm

/-- The outer row loop of `draw`:
`for (row = 0; row < n && y + row < 32 && vm->i + row < MEMORY_SIZE; row++)`.
The first argument counts the remaining iterations allowed by `row < n`
(initially `n`); `row` is the current row index. -/
def drawRowsAux (x y : Nat) : Nat → Nat → CHIP8 → CHIP8
  | 0, _, vm => vm
  | rem + 1, row, vm =>
    if y + row < 32 ∧ vm.i + row < 4096 then
      drawRowsAux x y rem (row + 1)
        (drawColsAux x (y + row) (vm.mem (vm.i + row)) 8 0 vm)
    else vm

/-- `draw` from src/chip8.c. -/
def draw (vm : CHIP8) (inst : Nat) : CHIP8 :=
  let x := vm.v (regX inst) % 64
  let y := vm.v (regY inst) % 32
  let n := nibD inst
  drawRowsAux x y n 0 (setV vm 15 0)

/-- `call` from src/chip8.c; `none` is the fatal `die("stack overflow")`. -/
def call (vm : CHIP8) (addr : Nat) : Option CHIP8 :=
  if vm.sp ≥ 5 then none
  else some { vm with stack := updateF vm.stack vm.sp vm.pc,
                      sp := vm.sp + 1,
                      pc := addr }

/-- `rts` from src/chip8.c; `none` is the fatal `die("stack underflow")`. -/
def rts (vm : CHIP8) : Option CHIP8 :=
  if vm.sp = 0 then none
  else some { vm with sp := vm.sp - 1, pc := vm.stack (vm.sp - 1) }

/-- `fetch` from src/chip8.c: two byte reads at `pc % MEMORY_SIZE` with the
`uint16_t` program counter incremented (mod 65536) after each, returning the
big-endian 16-bit instruction word. -/
def fetch (vm : CHIP8) : CHIP8 × Nat :=
  let i1 := vm.mem (vm.pc % 4096)
  let pcA := (vm.pc + 1) % 65536
  let i2 := vm.mem (pcA % 4096)
  let pcB := (pcA + 1) % 65536
  ({ vm with pc := pcB }, (i1 * 256 + i2) % 65536)

/-- The `NOKEY` sentinel (255) from src/chip8.c. -/
def NOKEY : Nat := 255

/-- The `QUIT` sentinel (254) from src/chip8.c. -/
def QUIT : Nat := 254

/-- ASCII `tolower` as used under the C locale. -/
def tolowerA (c : Nat) : Nat := if 65 ≤ c ∧ c ≤ 90 then c + 32 else c

/-- Index of the first occurrence of `ch` in the NUL-terminated string whose
characters are `l`; like C `strchr`, a search for 0 finds the terminator. -/
def strchrIdx (l : List Nat) (ch : Nat) : Option Nat :=
  match l with
  | [] => if ch = 0 then some 0 else none
  | a :: rest => if a = ch then some 0 else (strchrIdx rest ch).map (· + 1)

/-- `getkeyboard` from src/chip8.c. The polled `getch()` result is the input
`c` (`none` for `ERR`); the escape key 0x1b maps to `QUIT`, a keymap character
to its index cast to `uint8_t`, and anything else to `NOKEY`. -/
def getkeyboard (vm : CHIP8) (c : Option Nat) : Nat :=
  match c with
  | none => NOKEY
  | some ch =>
    if ch = 0x1b then QUIT
    else
      match strchrIdx vm.keymap (tolowerA ch) with
      | some idx => idx % 256
      | none => NOKEY

/-- `bcd` from src/chip8.c: write the decimal digits of `vx` at
`(i+0) % MEMORY_SIZE`, `(i+1) % MEMORY_SIZE`, `(i+2) % MEMORY_SIZE`. -/
def bcd (vm : CHIP8) (vx : Nat) : CHIP8 :=
  let m0 := updateF vm.mem ((vm.i + 0) % 4096) (vx / 100)
  let r1 := vx % 100
  let m1 := updateF m0 ((vm.i + 1) % 4096) (r1 / 10)
  let r2 := r1 % 10
  let m2 := updateF m1 ((vm.i + 2) % 4096) (r2 / 1)
  { vm with mem := m2 }

/-- The loop of `regdmp`: `for (i = 0; i <= vx; i++)`, unrolled with a
countdown of remaining iterations (initially `vx + 1`); `k` is the loop index. -/
def regdmpAux : CHIP8 → Nat → Nat → CHIP8
  | vm, _, 0 => vm
  | vm, k, rem + 1 =>
    regdmpAux { vm with mem := updateF vm.mem ((vm.i + k) % 4096) (vm.v k) }
      (k + 1) rem

/-- `regdmp` from src/chip8.c: store V0..Vvx at `(i+k) % MEMORY_SIZE`. -/
def regdmp (vm : CHIP8) (vx : Nat) : CHIP8 := regdmpAux vm 0 (vx + 1)

/-- The loop of `regld`, same shape as `regdmpAux`. -/
def regldAux : CHIP8 → Nat → Nat → CHIP8
  | vm, _, 0 => vm
  | vm, k, rem + 1 =>
    regldAux (setV vm k (vm.mem ((vm.i + k) % 4096))) (k + 1) rem

/-- `regld` from src/chip8.c: load V0..Vvx from `(i+k) % MEMORY_SIZE`. -/
def regld (vm : CHIP8) (vx : Nat) : CHIP8 := regldAux vm 0 (vx + 1)

/-- Locals of `run` that live across cycles: the machine and the pending
`keyreg` register (17 when no key wait is pending). -/
structure RunState where
  vm : CHIP8
  keyreg : Nat

/-- One decode-execute step: the body of the dispatch chain in `run`
(src/chip8.c lines 285-319), for an already fetched instruction word `inst`.
The branches appear in source order; falling off the end is the fatal
`die("invalid instruction")`, embedded as `none`. -/
def execInst (rs : RunState) (inst pressed rnd : Nat) : Option RunState :=
  let vm := rs.vm
  if inst = 0x00E0 then some ⟨cls vm, rs.keyreg⟩ else
  if inst = 0x00EE then (rts vm).map (fun w => ⟨w, rs.keyreg⟩) else
  if nibA inst = 0x1 then some ⟨{ vm with pc := addrNNN inst }, rs.keyreg⟩ else
  if nibA inst = 0x2 then (call vm (addrNNN inst)).map (fun w => ⟨w, rs.keyreg⟩) else
  if nibA inst = 0x3 then
    some ⟨{ vm with pc := (vm.pc + (if vm.v (regX inst) = lowB inst then 2 else 0)) % 65536 }, rs.keyreg⟩ else
  if nibA inst = 0x4 then
    some ⟨{ vm with pc := (vm.pc + (if vm.v (regX inst) ≠ lowB inst then 2 else 0)) % 65536 }, rs.keyreg⟩ else
  if nibA inst = 0x5 ∧ nibD inst = 0x0 then
    some ⟨{ vm with pc := (vm.pc + (if vm.v (regX inst) = vm.v (regY inst) then 2 else 0)) % 65536 }, rs.keyreg⟩ else
  if nibA inst = 0x6 then some ⟨setV vm (regX inst) (lowB inst), rs.keyreg⟩ else
  if nibA inst = 0x7 then
    some ⟨setV vm (regX inst) ((vm.v (regX inst) + lowB inst) % 256), rs.keyreg⟩ else
  if nibA inst = 0x8 ∧ nibD inst = 0x0 then
    some ⟨setV vm (regX inst) (vm.v (regY inst)), rs.keyreg⟩ else
  if nibA inst = 0x8 ∧ nibD inst = 0x1 then
    some ⟨setV vm (regX inst) (vm.v (regX inst) ||| vm.v (regY inst)), rs.keyreg⟩ else
  if nibA inst = 0x8 ∧ nibD inst = 0x2 then
    some ⟨setV vm (regX inst) (vm.v (regX inst) &&& vm.v (regY inst)), rs.keyreg⟩ else
  if nibA inst = 0x8 ∧ nibD inst = 0x3 then
    some ⟨setV vm (regX inst) (vm.v (regX inst) ^^^ vm.v (regY inst)), rs.keyreg⟩ else
  if nibA inst = 0x8 ∧ nibD inst = 0x4 then
    -- Vx += Vy; VF = (int)Vx + Vy > 0xFF  (the flag reads the updated Vx)
    let w := setV vm (regX inst) ((vm.v (regX inst) + vm.v (regY inst)) % 256)
    some ⟨setV w 15 (if w.v (regX inst) + w.v (regY inst) > 0xFF then 1 else 0), rs.keyreg⟩ else
  if nibA inst = 0x8 ∧ nibD inst = 0x5 then
    -- Vx -= Vy; VF = (int)Vx > Vy  (the flag reads the updated Vx)
    let w := setV vm (regX inst) (sub8 (vm.v (regX inst)) (vm.v (regY inst)))
    some ⟨setV w 15 (if w.v (regX inst) > w.v (regY inst) then 1 else 0), rs.keyreg⟩ else
  if nibA inst = 0x8 ∧ nibD inst = 0x6 then
    -- VF = Vx&1; Vx >>= 1
    let w := setV vm 15 (vm.v (regX inst) % 2)
    some ⟨setV w (regX inst) (w.v (regX inst) / 2), rs.keyreg⟩ else
  if nibA inst = 0x8 ∧ nibD inst = 0x7 then
    some ⟨setV vm (regX inst) (sub8 (vm.v (regY inst)) (vm.v (regX inst))), rs.keyreg⟩ else
  if nibA inst = 0x8 ∧ nibD inst = 0xE then
    -- VF = isbitset(0, Vx); Vx <<= 1
    let w := setV vm 15 (if isbitset 0 (vm.v (regX inst)) then 1 else 0)
    some ⟨setV w (regX inst) (w.v (regX inst) * 2 % 256), rs.keyreg⟩ else
  if nibA inst = 0x9 ∧ nibD inst = 0x0 then
    some ⟨{ vm with pc := (vm.pc + (if vm.v (regX inst) ≠ vm.v (regY inst) then 2 else 0)) % 65536 }, rs.keyreg⟩ else
  if nibA inst = 0xA then some ⟨{ vm with i := addrNNN inst }, rs.keyreg⟩ else
  if nibA inst = 0xB then
    some ⟨{ vm with pc := (addrNNN inst + vm.v 0) % 65536 }, rs.keyreg⟩ else
  if nibA inst = 0xC then
    -- Vx = (rand()%255)&LH; the value rand() would return is the input rnd
    some ⟨setV vm (regX inst) ((rnd % 255) &&& lowB inst), rs.keyreg⟩ else
  if nibA inst = 0xD then some ⟨draw vm inst, rs.keyreg⟩ else
  if nibA inst = 0xE ∧ lowB inst = 0x9E then
    some ⟨{ vm with pc := (vm.pc + (if vm.v (regX inst) = pressed then 2 else 0)) % 65536 }, rs.keyreg⟩ else
  if nibA inst = 0xE ∧ lowB inst = 0xA1 then
    some ⟨{ vm with pc := (vm.pc + (if vm.v (regX inst) ≠ pressed then 2 else 0)) % 65536 }, rs.keyreg⟩ else
  if nibA inst = 0xF ∧ lowB inst = 0x07 then
    some ⟨setV vm (regX inst) vm.delay, rs.keyreg⟩ else
  if nibA inst = 0xF ∧ lowB inst = 0x0A then
    -- PC -= 2; keyreg = X  (uint16_t subtraction)
    some ⟨{ vm with pc := (vm.pc + 65536 - 2) % 65536 }, regX inst⟩ else
  if nibA inst = 0xF ∧ lowB inst = 0x15 then
    some ⟨{ vm with delay := vm.v (regX inst) }, rs.keyreg⟩ else
  if nibA inst = 0xF ∧ lowB inst = 0x18 then
    some ⟨{ vm with sound := vm.v (regX inst) }, rs.keyreg⟩ else
  if nibA inst = 0xF ∧ lowB inst = 0x1E then
    -- I += Vx; VF = (int)Vx + I > 0xFFF  (the flag reads the updated I)
    let w := { vm with i := (vm.i + vm.v (regX inst)) % 65536 }
    some ⟨setV w 15 (if w.v (regX inst) + w.i > 0xFFF then 1 else 0), rs.keyreg⟩ else
  if nibA inst = 0xF ∧ lowB inst = 0x29 then
    some ⟨{ vm with i := vm.v (regX inst) * 5 % 65536 }, rs.keyreg⟩ else
  if nibA inst = 0xF ∧ lowB inst = 0x33 then
    some ⟨bcd vm (vm.v (regX inst)), rs.keyreg⟩ else
  if nibA inst = 0xF ∧ lowB inst = 0x55 then
    some ⟨regdmp vm (regX inst), rs.keyreg⟩ else
  if nibA inst = 0xF ∧ lowB inst = 0x65 then
    some ⟨regld vm (regX inst), rs.keyreg⟩ else
  none

/-- One fetch-decode-execute cycle: one iteration of the inner `for` loop of
`run`. -/
def cycle (rs : RunState) (pressed rnd : Nat) : Option RunState :=
  let p := fetch rs.vm
  execInst ⟨p.1, rs.keyreg⟩ p.2 pressed rnd

/-- The inner `for (i = 0; i < vm->inspertick; i++)` loop of `run`: execute a
given number of cycles. -/
def execBatch : RunState → Nat → Nat → Nat → Option RunState
  | rs, _, _, 0 => some rs
  | rs, pressed, rnd, m + 1 => (cycle rs pressed rnd).bind fun rs2 => execBatch rs2 pressed rnd m

/-- The per-tick timer updates of `run`: `if (vm->delay) vm->delay--;` and the
same for `sound`. -/
def decTimers (vm : CHIP8) : CHIP8 :=
  { vm with delay := if vm.delay ≠ 0 then vm.delay - 1 else vm.delay,
            sound := if vm.sound ≠ 0 then vm.sound - 1 else vm.sound }

/-- The body of the `while (pressed != QUIT)` loop of `run`, given this tick's
polled keyboard result `pressed`: deliver a pending key wait, execute
`inspertick` cycles, then decrement the timers. (The sleep and screen refresh
are external.) -/
def tick (rs : RunState) (pressed rnd : Nat) : Option RunState :=
  let rs1 := if rs.keyreg < 16 ∧ pressed ≠ NOKEY then
      (⟨{ rs.vm with v := updateF rs.vm.v rs.keyreg pressed,
                     pc := (rs.vm.pc + 2) % 65536 }, 17⟩ : RunState)
    else rs
  (execBatch rs1 pressed rnd rs1.vm.inspertick).map fun rs2 =>
    ⟨decTimers rs2.vm, rs2.keyreg⟩

/-- Iterated ticks with the poll sequence `ps` (`run` iterates `tick` while the
previous poll was not `QUIT`; the claims considered here use poll sequences
that never contain `QUIT`). -/
def ticks (rs : RunState) (ps : Nat → Nat) (rnd : Nat) : Nat → Option RunState
  | 0 => some rs
  | t + 1 => (ticks rs ps rnd t).bind fun r => tick r (ps t) rnd

/-- Bounded Boolean existential over the window of indices
`lo, lo+1, ..., lo+rem-1`. -/
def existsFromB (P : Nat → Bool) : Nat → Nat → Bool
  | _, 0 => false
  | lo, rem + 1 => P lo || existsFromB P (lo + 1) rem

/-- Pixels of row `y` toggled by the column loop `drawColsAux x y b rem col`:
column `c` is hit when `c = x + j` for some `j` in the window with
`x + j < 64` and bit `j` of `b` set. -/
def colMaskB (x b col rem c : Nat) : Bool :=
  existsFromB (fun j => decide (c = x + j) && decide (x + j < 64) && isbitset j b) col rem

/-- Collision test for the column loop: some toggled pixel of row `y` is
already on in display `d`. -/
def colCollB (d : Nat → Nat → Bool) (x y b col rem : Nat) : Bool :=
  existsFromB (fun j => decide (x + j < 64) && isbitset j b && d y (x + j)) col rem

/-- Pixels toggled by the row loop `drawRowsAux x y rem row`. -/
def rowMaskB (mem : Nat → Nat) (i x y row rem r c : Nat) : Bool :=
  existsFromB
    (fun ro => decide (r = y + ro) && decide (y + ro < 32) && decide (i + ro < 4096)
      && colMaskB x (mem (i + ro)) 0 8 c) row rem

/-- Collision test for the row loop against display `d`. -/
def rowCollB (mem : Nat → Nat) (d : Nat → Nat → Bool) (i x y row rem : Nat) : Bool :=
  existsFromB
    (fun ro => decide (y + ro < 32) && decide (i + ro < 4096)
      && colCollB d x (y + ro) (mem (i + ro)) 0 8) row rem

/-- Pixels toggled by `draw` on a machine with memory `mem`, index register
`i`, origin `(x, y)` and sprite height `n`. -/
def drawMaskB (mem : Nat → Nat) (i x y n r c : Nat) : Bool :=
  rowMaskB mem i x y 0 n r c

/-- Collision test for a whole `draw` against display `d`. -/
def drawCollB (mem : Nat → Nat) (d : Nat → Nat → Bool) (i x y n : Nat) : Bool :=
  rowCollB mem d i x y 0 n

/-- Modelled from the words of claim C4 and the spec invariant that all
addressing is modulo the memory length: like `drawRowsAux`, but every sprite
byte is read at `(i + row) % 4096` and only grid clipping can skip a row.
Used only to exhibit where the code differs from the claim. -/
def drawSpecRowsAux (x y : Nat) : Nat → Nat → CHIP8 → CHIP8
  | 0, _, vm => vm
  | rem + 1, row, vm =>
    if y + row < 32 then
      drawSpecRowsAux x y rem (row + 1)
        (drawColsAux x (y + row) (vm.mem ((vm.i + row) % 4096)) 8 0 vm)
    else vm

/-- Modelled from the words of claim C4: `draw` as the claim describes it. -/
def drawSpecC4 (vm : CHIP8) (inst : Nat) : CHIP8 :=
  let x := vm.v (regX inst) % 64
  let y := vm.v (regY inst) % 32
  let n := nibD inst
  drawSpecRowsAux x y n 0 (setV vm 15 0)

/-! ### Concrete machine states used by the claim analyses -/

/-- A baseline machine: all memory and registers zero, default `pc` 512 and
`inspertick` 11 as set up by `main`. -/
def vmBase : CHIP8 :=
  { mem := fun _ => 0, stack := fun _ => 0, pc := 512, sp := 0, i := 0,
    delay := 0, sound := 0, v := fun _ => 0,
    dirty := false, display := fun _ _ => false, inspertick := 11, keymap := [] }

/-- Machine with V0 = 0xFF and V1 = 0x01 (the C1 scenario). -/
def vmC1 : CHIP8 :=
  { vmBase with v := fun k => if k = 0 then 0xFF else if k = 1 then 1 else 0 }

/-- Machine with V0 = 0 and V1 = 1 (the C2 boundary scenario). -/
def vmC2 : CHIP8 :=
  { vmBase with v := fun k => if k = 1 then 1 else 0 }

/-- Machine with I = 0xF80 and V0 = 0x40 (C3 analysis). -/
def vmC3 : CHIP8 :=
  { vmBase with i := 0xF80, v := fun k => if k = 0 then 0x40 else 0 }

/-- Machine with I = 4095 and sprite bytes 0x80 at addresses 4095 and 0
(C4 analysis: the second sprite row read would pass the end of memory). -/
def vmC4 : CHIP8 :=
  { vmBase with i := 4095,
                mem := fun a => if a = 4095 then 0x80 else if a = 0 then 0x80 else 0 }

/-- Machine for the C5 witness: a small sprite at I = 100 over a patterned
display. -/
def vmC5 : CHIP8 :=
  { vmBase with i := 100,
                mem := fun a => if a = 100 then 0xA5 else if a = 101 then 0x3C else 0,
                v := fun k => if k = 0 then 60 else if k = 1 then 30 else 0,
                display := fun r c => decide ((r + c) % 3 = 0) }

/-- Machine with `pc` = 4095, at the upper edge of memory (C8 analysis). -/
def vmC8 : CHIP8 :=
  { vmBase with pc := 4095 }

/-- Machine for the C7 witness: bytes 0x31 0x05 at `pc` (skip if V1 = 5) and
V1 = 5. -/
def vmC7 : CHIP8 :=
  { vmBase with mem := fun a => if a = 512 then 0x31 else if a = 513 then 0x05 else 0,
                v := fun k => if k = 1 then 5 else 0 }

/-- Machine for the C9 witness: a wait-for-key instruction F00A at `pc` = 512
followed by a jump-to-self 1202 at 514. -/
def vmC9 : CHIP8 :=
  { vmBase with mem := fun a =>
      if a = 512 then 0xF0 else if a = 513 then 0x0A else
      if a = 514 then 0x12 else if a = 515 then 0x02 else 0 }

/-! ### Basic lemmas about updates and `setpixel` -/

lemma updateF_self (f : Nat → Nat) (k x : Nat) : updateF f k x k = x := by
  simp [updateF]

lemma updateF_ne (f : Nat → Nat) (k x j : Nat) (h : j ≠ k) : updateF f k x j = f j := by
  simp [updateF, h]

lemma setpixel_display (vm : CHIP8) (row col r c : Nat) :
    (setpixel vm row col).display r c =
      if r = row ∧ c = col then !(vm.display row col) else vm.display r c := by
  unfold setpixel
  by_cases h : vm.display row col
  · simp [h, updD]
  · simp [h, updD]

lemma setpixel_v15 (vm : CHIP8) (row col : Nat) :
    (setpixel vm row col).v 15 = if vm.display row col then 1 else vm.v 15 := by
  unfold setpixel
  by_cases h : vm.display row col
  · simp [h, updateF]
  · simp [h]

lemma setpixel_v_ne (vm : CHIP8) (row col k : Nat) (hk : k ≠ 15) :
    (setpixel vm row col).v k = vm.v k := by
  unfold setpixel
  by_cases h : vm.display row col
  · simp [h, updateF_ne _ _ _ _ hk]
  · simp [h]

lemma setpixel_mem (vm : CHIP8) (row col : Nat) : (setpixel vm row col).mem = vm.mem := by
  unfold setpixel; by_cases h : vm.display row col <;> simp [h]

lemma setpixel_i (vm : CHIP8) (row col : Nat) : (setpixel vm row col).i = vm.i := by
  unfold setpixel; by_cases h : vm.display row col <;> simp [h]

lemma setpixel_pc (vm : CHIP8) (row col : Nat) : (setpixel vm row col).pc = vm.pc := by
  unfold setpixel; by_cases h : vm.display row col <;> simp [h]

lemma setpixel_sp (vm : CHIP8) (row col : Nat) : (setpixel vm row col).sp = vm.sp := by
  unfold setpixel; by_cases h : vm.display row col <;> simp [h]

lemma setpixel_stack (vm : CHIP8) (row col : Nat) : (setpixel vm row col).stack = vm.stack := by
  unfold setpixel; by_cases h : vm.display row col <;> simp [h]

lemma setpixel_delay (vm : CHIP8) (row col : Nat) : (setpixel vm row col).delay = vm.delay := by
  unfold setpixel; by_cases h : vm.display row col <;> simp [h]

lemma setpixel_sound (vm : CHIP8) (row col : Nat) : (setpixel vm row col).sound = vm.sound := by
  unfold setpixel; by_cases h : vm.display row col <;> simp [h]

lemma setpixel_inspertick (vm : CHIP8) (row col : Nat) :
    (setpixel vm row col).inspertick = vm.inspertick := by
  unfold setpixel; by_cases h : vm.display row col <;> simp [h]

lemma setpixel_keymap (vm : CHIP8) (row col : Nat) :
    (setpixel vm row col).keymap = vm.keymap := by
  unfold setpixel; by_cases h : vm.display row col <;> simp [h]

/-! ### Bounded Boolean existentials -/

lemma existsFromB_zero (P : Nat → Bool) (lo : Nat) : existsFromB P lo 0 = false := rfl

lemma existsFromB_succ (P : Nat → Bool) (lo rem : Nat) :
    existsFromB P lo (rem + 1) = (P lo || existsFromB P (lo + 1) rem) := rfl

lemma existsFromB_congr {P Q : Nat → Bool} : ∀ rem lo,
    (∀ j, lo ≤ j → j < lo + rem → P j = Q j) →
    existsFromB P lo rem = existsFromB Q lo rem := by
  intro rem
  induction rem with
  | zero => intro lo _; rfl
  | succ n ih =>
    intro lo h
    rw [existsFromB_succ, existsFromB_succ, h lo le_rfl (by omega),
        ih (lo + 1) (fun j hj1 hj2 => h j (by omega) (by omega))]

lemma existsFromB_eq_false {P : Nat → Bool} : ∀ rem lo,
    (∀ j, lo ≤ j → j < lo + rem → P j = false) →
    existsFromB P lo rem = false := by
  intro rem
  induction rem with
  | zero => intro lo _; rfl
  | succ n ih =>
    intro lo h
    rw [existsFromB_succ, h lo le_rfl (by omega),
        ih (lo + 1) (fun j hj1 hj2 => h j (by omega) (by omega))]
    rfl

/-! ### Characterization of the draw column loop -/

lemma colMaskB_of_ge {x col : Nat} (h : 64 ≤ x + col) (b rem c : Nat) :
    colMaskB x b col rem c = false := by
  unfold colMaskB
  apply existsFromB_eq_false
  intro j hj1 _
  have hx : ¬ (x + j < 64) := by omega
  simp [hx]

lemma colMaskB_of_lt {x col c : Nat} (h : c < x + col) (b rem : Nat) :
    colMaskB x b col rem c = false := by
  unfold colMaskB
  apply existsFromB_eq_false
  intro j hj1 _
  have hx : ¬ (c = x + j) := by omega
  simp [hx]

lemma drawCols_display (x y b : Nat) : ∀ rem col vm r c,
    (drawColsAux x y b rem col vm).display r c =
      Bool.xor (decide (r = y) && colMaskB x b col rem c) (vm.display r c) := by
  intro rem
  induction rem with
  | zero =>
    intro col vm r c
    simp [drawColsAux, colMaskB, existsFromB_zero]
  | succ n ih =>
    intro col vm r c
    have hmask : colMaskB x b col (n + 1) c =
        ((decide (c = x + col) && decide (x + col < 64) && isbitset col b)
          || colMaskB x b (col + 1) n c) := rfl
    simp only [drawColsAux]
    by_cases h64 : x + col < 64
    · rw [if_pos h64, ih, hmask]
      by_cases hb : isbitset col b
      · rw [if_pos hb, setpixel_display]
        by_cases hr : r = y
        · subst hr
          by_cases hc : c = x + col
          · subst hc
            have htail : colMaskB x b (col + 1) n (x + col) = false :=
              colMaskB_of_lt (by omega) b n
            rw [htail]
            simp only [hb, h64]
            cases vm.display r (x + col) <;> simp
          · simp [hc, hb, h64]
        · have hrc : ¬ (r = y ∧ c = x + col) := fun hh => hr hh.1
          simp [hr, hrc]
      · rw [if_neg hb]
        simp [hb]
    · rw [if_neg h64, hmask]
      have htail : colMaskB x b (col + 1) n c = false :=
        @colMaskB_of_ge x (col + 1) (by omega) b n c
      simp [h64, htail]

lemma colCollB_of_ge {x col : Nat} (h : 64 ≤ x + col) (d : Nat → Nat → Bool) (y b rem : Nat) :
    colCollB d x y b col rem = false := by
  unfold colCollB
  apply existsFromB_eq_false
  intro j hj1 _
  have hx : ¬ (x + j < 64) := by omega
  simp [hx]

lemma drawCols_mem (x y b : Nat) : ∀ rem col vm,
    (drawColsAux x y b rem col vm).mem = vm.mem := by
  intro rem
  induction rem with
  | zero => intro col vm; rfl
  | succ n ih =>
    intro col vm
    simp only [drawColsAux]
    by_cases h64 : x + col < 64
    · rw [if_pos h64]
      by_cases hb : isbitset col b
      · rw [if_pos hb, ih, setpixel_mem]
      · rw [if_neg hb, ih]
    · rw [if_neg h64]

lemma drawCols_i (x y b : Nat) : ∀ rem col vm,
    (drawColsAux x y b rem col vm).i = vm.i := by
  intro rem
  induction rem with
  | zero => intro col vm; rfl
  | succ n ih =>
    intro col vm
    simp only [drawColsAux]
    by_cases h64 : x + col < 64
    · rw [if_pos h64]
      by_cases hb : isbitset col b
      · rw [if_pos hb, ih, setpixel_i]
      · rw [if_neg hb, ih]
    · rw [if_neg h64]

lemma drawCols_v_ne (x y b : Nat) : ∀ rem col vm k, k ≠ 15 →
    (drawColsAux x y b rem col vm).v k = vm.v k := by
  intro rem
  induction rem with
  | zero => intro col vm k _; rfl
  | succ n ih =>
    intro col vm k hk
    simp only [drawColsAux]
    by_cases h64 : x + col < 64
    · rw [if_pos h64]
      by_cases hb : isbitset col b
      · rw [if_pos hb, ih _ _ _ hk, setpixel_v_ne _ _ _ _ hk]
      · rw [if_neg hb, ih _ _ _ hk]
    · rw [if_neg h64]

lemma drawCols_v15 (x y b : Nat) : ∀ rem col vm,
    (drawColsAux x y b rem col vm).v 15 =
      if colCollB vm.display x y b col rem = true then 1 else vm.v 15 := by
  intro rem
  induction rem with
  | zero =>
    intro col vm
    simp [drawColsAux, colCollB, existsFromB_zero]
  | succ n ih =>
    intro col vm
    have hcoll : colCollB vm.display x y b col (n + 1) =
        ((decide (x + col < 64) && isbitset col b && vm.display y (x + col))
          || colCollB vm.display x y b (col + 1) n) := rfl
    simp only [drawColsAux]
    by_cases h64 : x + col < 64
    · rw [if_pos h64]
      by_cases hb : isbitset col b
      · rw [if_pos hb, ih]
        have hcong : colCollB (setpixel vm y (x + col)).display x y b (col + 1) n =
            colCollB vm.display x y b (col + 1) n := by
          unfold colCollB
          apply existsFromB_congr
          intro j hj1 _
          have hne : ¬ (y = y ∧ x + j = x + col) := by
            intro hh
            omega
          rw [setpixel_display, if_neg hne]
        rw [hcong, setpixel_v15, hcoll]
        cases hd : vm.display y (x + col) <;>
          cases ht : colCollB vm.display x y b (col + 1) n <;>
            simp [hd, ht, h64, hb]
      · rw [if_neg hb, ih, hcoll]
        rw [Bool.not_eq_true] at hb
        simp [hb]
    · rw [if_neg h64, hcoll]
      have htail : colCollB vm.display x y b (col + 1) n = false :=
        @colCollB_of_ge x (col + 1) (by omega) vm.display y b n
      simp [h64, htail]

/-! ### Characterization of the draw row loop -/

lemma rowMaskB_stop {y i row : Nat} (h : ¬ (y + row < 32 ∧ i + row < 4096))
    (mem : Nat → Nat) (x rem r c : Nat) :
    rowMaskB mem i x y row rem r c = false := by
  unfold rowMaskB
  apply existsFromB_eq_false
  intro ro h1 _
  have h2 : ¬ (y + ro < 32) ∨ ¬ (i + ro < 4096) := by
    by_cases h3 : y + ro < 32
    · right; intro h4; exact h ⟨by omega, by omega⟩
    · left; exact h3
  rcases h2 with h3 | h3 <;> simp [h3]

lemma rowMaskB_of_lt {y row r : Nat} (h : r < y + row) (mem : Nat → Nat)
    (i x rem c : Nat) :
    rowMaskB mem i x y row rem r c = false := by
  unfold rowMaskB
  apply existsFromB_eq_false
  intro ro h1 _
  have h2 : ¬ (r = y + ro) := by omega
  simp [h2]

lemma rowCollB_stop {y i row : Nat} (h : ¬ (y + row < 32 ∧ i + row < 4096))
    (mem : Nat → Nat) (d : Nat → Nat → Bool) (x rem : Nat) :
    rowCollB mem d i x y row rem = false := by
  unfold rowCollB
  apply existsFromB_eq_false
  intro ro h1 _
  have h2 : ¬ (y + ro < 32) ∨ ¬ (i + ro < 4096) := by
    by_cases h3 : y + ro < 32
    · right; intro h4; exact h ⟨by omega, by omega⟩
    · left; exact h3
  rcases h2 with h3 | h3 <;> simp [h3]

lemma drawRows_mem (x y : Nat) : ∀ rem row vm,
    (drawRowsAux x y rem row vm).mem = vm.mem := by
  intro rem
  induction rem with
  | zero => intro row vm; rfl
  | succ n ih =>
    intro row vm
    simp only [drawRowsAux]
    by_cases hcond : y + row < 32 ∧ vm.i + row < 4096
    · rw [if_pos hcond, ih, drawCols_mem]
    · rw [if_neg hcond]

lemma drawRows_i (x y : Nat) : ∀ rem row vm,
    (drawRowsAux x y rem row vm).i = vm.i := by
  intro rem
  induction rem with
  | zero => intro row vm; rfl
  | succ n ih =>
    intro row vm
    simp only [drawRowsAux]
    by_cases hcond : y + row < 32 ∧ vm.i + row < 4096
    · rw [if_pos hcond, ih, drawCols_i]
    · rw [if_neg hcond]

lemma drawRows_v_ne (x y : Nat) : ∀ rem row vm k, k ≠ 15 →
    (drawRowsAux x y rem row vm).v k = vm.v k := by
  intro rem
  induction rem with
  | zero => intro row vm k _; rfl
  | succ n ih =>
    intro row vm k hk
    simp only [drawRowsAux]
    by_cases hcond : y + row < 32 ∧ vm.i + row < 4096
    · rw [if_pos hcond, ih _ _ _ hk, drawCols_v_ne _ _ _ _ _ _ _ hk]
    · rw [if_neg hcond]

lemma drawRows_display (x y : Nat) : ∀ rem row vm r c,
    (drawRowsAux x y rem row vm).display r c =
      Bool.xor (rowMaskB vm.mem vm.i x y row rem r c) (vm.display r c) := by
  intro rem
  induction rem with
  | zero =>
    intro row vm r c
    simp [drawRowsAux, rowMaskB, existsFromB_zero]
  | succ n ih =>
    intro row vm r c
    have hmask : rowMaskB vm.mem vm.i x y row (n + 1) r c =
        ((decide (r = y + row) && decide (y + row < 32) && decide (vm.i + row < 4096)
            && colMaskB x (vm.mem (vm.i + row)) 0 8 c)
          || rowMaskB vm.mem vm.i x y (row + 1) n r c) := rfl
    simp only [drawRowsAux]
    by_cases hcond : y + row < 32 ∧ vm.i + row < 4096
    · rw [if_pos hcond, ih, drawCols_mem, drawCols_i, drawCols_display, hmask]
      by_cases hr : r = y + row
      · have htail : rowMaskB vm.mem vm.i x y (row + 1) n r c = false :=
          rowMaskB_of_lt (by omega) vm.mem vm.i x n c
        rw [htail]
        cases hcm : colMaskB x (vm.mem (vm.i + row)) 0 8 c <;>
          cases ho : vm.display (y + row) c <;> simp [hcm, ho, hr, hcond.1, hcond.2]
      · simp [hr]
    · rw [if_neg hcond, hmask]
      have h2 : ¬ (y + (row + 1) < 32 ∧ vm.i + (row + 1) < 4096) := by
        intro hh; exact hcond ⟨by omega, by omega⟩
      have htail : rowMaskB vm.mem vm.i x y (row + 1) n r c = false :=
        rowMaskB_stop h2 vm.mem x n r c
      have h3 : ¬ (y + row < 32) ∨ ¬ (vm.i + row < 4096) := by
        by_cases h4 : y + row < 32
        · right; intro h5; exact hcond ⟨h4, h5⟩
        · left; exact h4
      rcases h3 with h4 | h4 <;> simp [htail, h4]

lemma drawRows_v15 (x y : Nat) : ∀ rem row vm,
    (drawRowsAux x y rem row vm).v 15 =
      if rowCollB vm.mem vm.display vm.i x y row rem = true then 1 else vm.v 15 := by
  intro rem
  induction rem with
  | zero =>
    intro row vm
    simp [drawRowsAux, rowCollB, existsFromB_zero]
  | succ n ih =>
    intro row vm
    have hcoll : rowCollB vm.mem vm.display vm.i x y row (n + 1) =
        ((decide (y + row < 32) && decide (vm.i + row < 4096)
            && colCollB vm.display x (y + row) (vm.mem (vm.i + row)) 0 8)
          || rowCollB vm.mem vm.display vm.i x y (row + 1) n) := rfl
    simp only [drawRowsAux]
    by_cases hcond : y + row < 32 ∧ vm.i + row < 4096
    · rw [if_pos hcond, ih, drawCols_mem, drawCols_i]
      have hcong : rowCollB vm.mem
            (drawColsAux x (y + row) (vm.mem (vm.i + row)) 8 0 vm).display
            vm.i x y (row + 1) n
          = rowCollB vm.mem vm.display vm.i x y (row + 1) n := by
        unfold rowCollB
        apply existsFromB_congr
        intro ro hro _
        congr 1
        unfold colCollB
        apply existsFromB_congr
        intro j _ _
        congr 1
        rw [drawCols_display]
        have hne : ¬ (y + ro = y + row) := by omega
        simp [hne]
      rw [hcong, drawCols_v15, hcoll]
      cases hc1 : colCollB vm.display x (y + row) (vm.mem (vm.i + row)) 0 8 <;>
        cases hc2 : rowCollB vm.mem vm.display vm.i x y (row + 1) n <;>
          simp [hc1, hc2, hcond.1, hcond.2]
    · rw [if_neg hcond, hcoll]
      have h2 : ¬ (y + (row + 1) < 32 ∧ vm.i + (row + 1) < 4096) := by
        intro hh; exact hcond ⟨by omega, by omega⟩
      have htail : rowCollB vm.mem vm.display vm.i x y (row + 1) n = false :=
        rowCollB_stop h2 vm.mem vm.display x n
      have h3 : ¬ (y + row < 32) ∨ ¬ (vm.i + row < 4096) := by
        by_cases h4 : y + row < 32
        · right; intro h5; exact hcond ⟨h4, h5⟩
        · left; exact h4
      rcases h3 with h4 | h4 <;> simp [htail, h4]

/-! ### Characterization of `draw` -/

lemma draw_display (vm : CHIP8) (inst r c : Nat) :
    (draw vm inst).display r c =
      Bool.xor
        (drawMaskB vm.mem vm.i (vm.v (regX inst) % 64) (vm.v (regY inst) % 32)
          (nibD inst) r c)
        (vm.display r c) := by
  unfold draw drawMaskB
  rw [drawRows_display]
  rfl

lemma draw_v15 (vm : CHIP8) (inst : Nat) :
    (draw vm inst).v 15 =
      if drawCollB vm.mem vm.display vm.i (vm.v (regX inst) % 64)
          (vm.v (regY inst) % 32) (nibD inst) = true then 1 else 0 := by
  unfold draw drawCollB
  rw [drawRows_v15]
  simp [setV, updateF]

lemma draw_mem (vm : CHIP8) (inst : Nat) : (draw vm inst).mem = vm.mem := by
  unfold draw
  rw [drawRows_mem]
  rfl

lemma draw_i (vm : CHIP8) (inst : Nat) : (draw vm inst).i = vm.i := by
  unfold draw
  rw [drawRows_i]
  rfl

lemma draw_v_ne (vm : CHIP8) (inst k : Nat) (hk : k ≠ 15) :
    (draw vm inst).v k = vm.v k := by
  unfold draw
  rw [drawRows_v_ne _ _ _ _ _ _ hk]
  simp [setV, updateF_ne _ _ _ _ hk]

/-! ### Decode lemmas: evaluating `execInst` on each instruction family -/

lemma execInst_00EE (rs : RunState) (pressed rnd : Nat) :
    execInst rs 0x00EE pressed rnd = (rts rs.vm).map (fun w => ⟨w, rs.keyreg⟩) := by
  simp only [execInst]
  norm_num

lemma execInst_1nnn (rs : RunState) (nnn pressed rnd : Nat) (hn : nnn < 4096) :
    execInst rs (0x1000 + nnn) pressed rnd =
      some ⟨{ rs.vm with pc := nnn }, rs.keyreg⟩ := by
  have h1 : nibA (0x1000 + nnn) = 0x1 := by unfold nibA; omega
  have h2 : addrNNN (0x1000 + nnn) = nnn := by unfold addrNNN; omega
  have h5 : (0x1000 + nnn) ≠ 0x00E0 := by omega
  have h6 : (0x1000 + nnn) ≠ 0x00EE := by omega
  simp only [execInst]
  rw [if_neg h5, if_neg h6]
  simp only [h1, h2]
  simp

lemma execInst_2nnn (rs : RunState) (nnn pressed rnd : Nat) (hn : nnn < 4096) :
    execInst rs (0x2000 + nnn) pressed rnd =
      (call rs.vm nnn).map (fun w => ⟨w, rs.keyreg⟩) := by
  have h1 : nibA (0x2000 + nnn) = 0x2 := by unfold nibA; omega
  have h2 : addrNNN (0x2000 + nnn) = nnn := by unfold addrNNN; omega
  have h5 : (0x2000 + nnn) ≠ 0x00E0 := by omega
  have h6 : (0x2000 + nnn) ≠ 0x00EE := by omega
  simp only [execInst]
  rw [if_neg h5, if_neg h6]
  simp only [h1, h2]
  simp

lemma execInst_3xkk (rs : RunState) (x kk pressed rnd : Nat) (hx : x < 16) (hkk : kk < 256) :
    execInst rs (0x3000 + x * 256 + kk) pressed rnd =
      some ⟨{ rs.vm with pc := (rs.vm.pc + (if rs.vm.v x = kk then 2 else 0)) % 65536 },
        rs.keyreg⟩ := by
  have h1 : nibA (0x3000 + x * 256 + kk) = 0x3 := by unfold nibA; omega
  have h4 : regX (0x3000 + x * 256 + kk) = x := by unfold regX; omega
  have hL : lowB (0x3000 + x * 256 + kk) = kk := by unfold lowB; omega
  have h5 : (0x3000 + x * 256 + kk) ≠ 0x00E0 := by omega
  have h6 : (0x3000 + x * 256 + kk) ≠ 0x00EE := by omega
  simp only [execInst]
  rw [if_neg h5, if_neg h6]
  simp only [h1, h4, hL]
  simp

lemma execInst_4xkk (rs : RunState) (x kk pressed rnd : Nat) (hx : x < 16) (hkk : kk < 256) :
    execInst rs (0x4000 + x * 256 + kk) pressed rnd =
      some ⟨{ rs.vm with pc := (rs.vm.pc + (if rs.vm.v x ≠ kk then 2 else 0)) % 65536 },
        rs.keyreg⟩ := by
  have h1 : nibA (0x4000 + x * 256 + kk) = 0x4 := by unfold nibA; omega
  have h4 : regX (0x4000 + x * 256 + kk) = x := by unfold regX; omega
  have hL : lowB (0x4000 + x * 256 + kk) = kk := by unfold lowB; omega
  have h5 : (0x4000 + x * 256 + kk) ≠ 0x00E0 := by omega
  have h6 : (0x4000 + x * 256 + kk) ≠ 0x00EE := by omega
  simp only [execInst]
  rw [if_neg h5, if_neg h6]
  simp only [h1, h4, hL]
  simp

lemma execInst_5xy0 (rs : RunState) (x y pressed rnd : Nat) (hx : x < 16) (hy : y < 16) :
    execInst rs (0x5000 + x * 256 + y * 16) pressed rnd =
      some ⟨{ rs.vm with pc := (rs.vm.pc + (if rs.vm.v x = rs.vm.v y then 2 else 0)) % 65536 },
        rs.keyreg⟩ := by
  have h1 : nibA (0x5000 + x * 256 + y * 16) = 0x5 := by unfold nibA; omega
  have h2 : nibD (0x5000 + x * 256 + y * 16) = 0x0 := by unfold nibD; omega
  have h4 : regX (0x5000 + x * 256 + y * 16) = x := by unfold regX; omega
  have h7 : regY (0x5000 + x * 256 + y * 16) = y := by unfold regY; omega
  have h5 : (0x5000 + x * 256 + y * 16) ≠ 0x00E0 := by omega
  have h6 : (0x5000 + x * 256 + y * 16) ≠ 0x00EE := by omega
  simp only [execInst]
  rw [if_neg h5, if_neg h6]
  simp only [h1, h2, h4, h7]
  simp

lemma execInst_9xy0 (rs : RunState) (x y pressed rnd : Nat) (hx : x < 16) (hy : y < 16) :
    execInst rs (0x9000 + x * 256 + y * 16) pressed rnd =
      some ⟨{ rs.vm with pc := (rs.vm.pc + (if rs.vm.v x ≠ rs.vm.v y then 2 else 0)) % 65536 },
        rs.keyreg⟩ := by
  have h1 : nibA (0x9000 + x * 256 + y * 16) = 0x9 := by unfold nibA; omega
  have h2 : nibD (0x9000 + x * 256 + y * 16) = 0x0 := by unfold nibD; omega
  have h4 : regX (0x9000 + x * 256 + y * 16) = x := by unfold regX; omega
  have h7 : regY (0x9000 + x * 256 + y * 16) = y := by unfold regY; omega
  have h5 : (0x9000 + x * 256 + y * 16) ≠ 0x00E0 := by omega
  have h6 : (0x9000 + x * 256 + y * 16) ≠ 0x00EE := by omega
  simp only [execInst]
  rw [if_neg h5, if_neg h6]
  simp only [h1, h2, h4, h7]
  simp

lemma execInst_Ex9E (rs : RunState) (x pressed rnd : Nat) (hx : x < 16) :
    execInst rs (0xE000 + x * 256 + 0x9E) pressed rnd =
      some ⟨{ rs.vm with pc := (rs.vm.pc + (if rs.vm.v x = pressed then 2 else 0)) % 65536 },
        rs.keyreg⟩ := by
  have h1 : nibA (0xE000 + x * 256 + 0x9E) = 0xE := by unfold nibA; omega
  have h2 : nibD (0xE000 + x * 256 + 0x9E) = 0xE := by unfold nibD; omega
  have h4 : regX (0xE000 + x * 256 + 0x9E) = x := by unfold regX; omega
  have hL : lowB (0xE000 + x * 256 + 0x9E) = 0x9E := by unfold lowB; omega
  have h5 : (0xE000 + x * 256 + 0x9E) ≠ 0x00E0 := by omega
  have h6 : (0xE000 + x * 256 + 0x9E) ≠ 0x00EE := by omega
  simp only [execInst]
  rw [if_neg h5, if_neg h6]
  simp only [h1, h2, h4, hL]
  simp

lemma execInst_ExA1 (rs : RunState) (x pressed rnd : Nat) (hx : x < 16) :
    execInst rs (0xE000 + x * 256 + 0xA1) pressed rnd =
      some ⟨{ rs.vm with pc := (rs.vm.pc + (if rs.vm.v x ≠ pressed then 2 else 0)) % 65536 },
        rs.keyreg⟩ := by
  have h1 : nibA (0xE000 + x * 256 + 0xA1) = 0xE := by unfold nibA; omega
  have h2 : nibD (0xE000 + x * 256 + 0xA1) = 0x1 := by unfold nibD; omega
  have h4 : regX (0xE000 + x * 256 + 0xA1) = x := by unfold regX; omega
  have hL : lowB (0xE000 + x * 256 + 0xA1) = 0xA1 := by unfold lowB; omega
  have h5 : (0xE000 + x * 256 + 0xA1) ≠ 0x00E0 := by omega
  have h6 : (0xE000 + x * 256 + 0xA1) ≠ 0x00EE := by omega
  simp only [execInst]
  rw [if_neg h5, if_neg h6]
  simp only [h1, h2, h4, hL]
  simp

lemma execInst_8xy5 (rs : RunState) (x y pressed rnd : Nat) (hx : x < 16) (hy : y < 16) :
    execInst rs (0x8000 + x * 256 + y * 16 + 5) pressed rnd =
      (let w := setV rs.vm x (sub8 (rs.vm.v x) (rs.vm.v y))
       some ⟨setV w 15 (if w.v x > w.v y then 1 else 0), rs.keyreg⟩) := by
  have h1 : nibA (0x8000 + x * 256 + y * 16 + 5) = 0x8 := by unfold nibA; omega
  have h2 : nibD (0x8000 + x * 256 + y * 16 + 5) = 0x5 := by unfold nibD; omega
  have h4 : regX (0x8000 + x * 256 + y * 16 + 5) = x := by unfold regX; omega
  have h7 : regY (0x8000 + x * 256 + y * 16 + 5) = y := by unfold regY; omega
  have h5 : (0x8000 + x * 256 + y * 16 + 5) ≠ 0x00E0 := by omega
  have h6 : (0x8000 + x * 256 + y * 16 + 5) ≠ 0x00EE := by omega
  simp only [execInst]
  rw [if_neg h5, if_neg h6]
  simp only [h1, h2, h4, h7]
  simp

lemma execInst_Fx1E (rs : RunState) (x pressed rnd : Nat) (hx : x < 16) :
    execInst rs (0xF000 + x * 256 + 0x1E) pressed rnd =
      (let w := { rs.vm with i := (rs.vm.i + rs.vm.v x) % 65536 }
       some ⟨setV w 15 (if w.v x + w.i > 0xFFF then 1 else 0), rs.keyreg⟩) := by
  have h1 : nibA (0xF000 + x * 256 + 0x1E) = 0xF := by unfold nibA; omega
  have h2 : nibD (0xF000 + x * 256 + 0x1E) = 0xE := by unfold nibD; omega
  have h4 : regX (0xF000 + x * 256 + 0x1E) = x := by unfold regX; omega
  have hL : lowB (0xF000 + x * 256 + 0x1E) = 0x1E := by unfold lowB; omega
  have h5 : (0xF000 + x * 256 + 0x1E) ≠ 0x00E0 := by omega
  have h6 : (0xF000 + x * 256 + 0x1E) ≠ 0x00EE := by omega
  simp only [execInst]
  rw [if_neg h5, if_neg h6]
  simp only [h1, h2, h4, hL]
  simp

lemma execInst_Fx0A (rs : RunState) (x pressed rnd : Nat) (hx : x < 16) :
    execInst rs (0xF000 + x * 256 + 0x0A) pressed rnd =
      some ⟨{ rs.vm with pc := (rs.vm.pc + 65536 - 2) % 65536 }, x⟩ := by
  have h1 : nibA (0xF000 + x * 256 + 0x0A) = 0xF := by unfold nibA; omega
  have h2 : nibD (0xF000 + x * 256 + 0x0A) = 0xA := by unfold nibD; omega
  have h3 : lowB (0xF000 + x * 256 + 0x0A) = 0x0A := by unfold lowB; omega
  have h4 : regX (0xF000 + x * 256 + 0x0A) = x := by unfold regX; omega
  have h5 : (0xF000 + x * 256 + 0x0A) ≠ 0x00E0 := by omega
  have h6 : (0xF000 + x * 256 + 0x0A) ≠ 0x00EE := by omega
  simp only [execInst]
  rw [if_neg h5, if_neg h6]
  simp only [h1, h2, h3, h4]
  simp

/-! ### Claim C1 -/

/-- Claim C1: for `add Vx,Vy` (8xy4) the claim and the spec require VF = 1
exactly when the 9-bit sum of the pre-instruction Vx and Vy exceeds 255, and in
particular V0=0xFF, V1=0x01 must leave V0=0x00 and VF=1. The code computes the
flag from the already-updated Vx (`Vx += Vy; VF = (int)Vx + Vy > 0xFF`), so at
this very input it leaves V0=0x00 but VF=0 even though the 9-bit sum 0x100
exceeds 255: the code contradicts the documented intent. -/
theorem c1_add_carry_flag_code_bug :
    (execInst ⟨vmC1, 17⟩ 0x8014 255 0).map (fun r => (r.vm.v 0, r.vm.v 15))
        = some (0, 0) ∧
    vmC1.v 0 + vmC1.v 1 > 255 := by
  exact ⟨by decide, by decide⟩

/-! ### Claim C2 -/

/-- Claim C2 counterexample: at Vx=0, Vy=1 the code yields result 255 with
VF=1, while the claim (VF = 1 iff the pre-subtraction Vx is strictly greater
than Vy, and in particular VF=0 here) requires VF=0. -/
theorem c2_sub_borrow_counterexample :
    (execInst ⟨vmC2, 17⟩ 0x8015 255 0).map (fun r => (r.vm.v 0, r.vm.v 15))
        = some (255, 1) ∧
    ¬ (vmC2.v 0 > vmC2.v 1) := by
  exact ⟨by decide, by decide⟩

/-- Claim C2 (amended): for `sub Vx,Vy` (8xy5, with distinct Vx, Vy and Vx not
VF), Vx becomes (Vx - Vy) mod 256 and VF is set to 1 if and only if the
post-subtraction value of Vx is strictly greater than Vy; in particular Vx=0,
Vy=1 yields result 255 with VF=1. -/
theorem c2_sub_borrow_amended (rs : RunState) (x y pressed rnd : Nat)
    (hx : x < 16) (hy : y < 16) (hx15 : x ≠ 15) (hxy : x ≠ y) :
    ∃ w : RunState, execInst rs (0x8000 + x * 256 + y * 16 + 5) pressed rnd = some w ∧
      w.vm.v x = sub8 (rs.vm.v x) (rs.vm.v y) ∧
      w.vm.v 15 = (if sub8 (rs.vm.v x) (rs.vm.v y) > rs.vm.v y then 1 else 0) ∧
      (∀ k, k ≠ x → k ≠ 15 → w.vm.v k = rs.vm.v k) ∧
      w.keyreg = rs.keyreg := by
  rw [execInst_8xy5 rs x y pressed rnd hx hy]
  refine ⟨_, rfl, ?_, ?_, ?_, rfl⟩
  · simp [setV, updateF, hx15]
  · simp [setV, updateF, Ne.symm hxy]
  · intro k hk1 hk2
    simp [setV, updateF, hk1, hk2]

/-- Claim C2 witness: the amended statement at the concrete boundary input
Vx=0, Vy=1. -/
theorem c2_sub_borrow_amended_witness :
    ∃ w : RunState, execInst ⟨vmC2, 17⟩ 0x8015 255 0 = some w ∧
      w.vm.v 0 = sub8 (vmC2.v 0) (vmC2.v 1) ∧
      w.vm.v 15 = (if sub8 (vmC2.v 0) (vmC2.v 1) > vmC2.v 1 then 1 else 0) ∧
      (∀ k, k ≠ 0 → k ≠ 15 → w.vm.v k = vmC2.v k) ∧
      w.keyreg = 17 := by
  have h := c2_sub_borrow_amended ⟨vmC2, 17⟩ 0 1 255 0 (by decide) (by decide)
    (by decide) (by decide)
  simpa using h

/-! ### Claim C3 -/

/-- Claim C3 counterexample: at I=0xF80, V0=0x40 the pre-instruction sum
I + Vx = 0xFC0 does not exceed 0xFFF, so the claim requires VF=0; the code sets
I to 0xFC0 and VF to 1 (the flag is computed from the already-updated I). -/
theorem c3_addi_overflow_counterexample :
    (execInst ⟨vmC3, 17⟩ 0xF01E 255 0).map (fun r => (r.vm.i, r.vm.v 15))
        = some (4032, 1) ∧
    ¬ (vmC3.i + vmC3.v 0 > 0xFFF) := by
  exact ⟨by decide, by decide⟩

/-- Claim C3 (amended): for `add I,Vx` (Fx1E), I becomes (I + Vx) mod 2^16 and
VF is set to 1 if and only if Vx plus the updated I exceeds 0xFFF. -/
theorem c3_addi_overflow_amended (rs : RunState) (x pressed rnd : Nat) (hx : x < 16) :
    ∃ w : RunState, execInst rs (0xF000 + x * 256 + 0x1E) pressed rnd = some w ∧
      w.vm.i = (rs.vm.i + rs.vm.v x) % 65536 ∧
      w.vm.v 15 = (if rs.vm.v x + (rs.vm.i + rs.vm.v x) % 65536 > 0xFFF then 1 else 0) ∧
      (∀ k, k ≠ 15 → w.vm.v k = rs.vm.v k) ∧
      w.keyreg = rs.keyreg := by
  rw [execInst_Fx1E rs x pressed rnd hx]
  refine ⟨_, rfl, ?_, ?_, ?_, rfl⟩
  · simp [setV]
  · simp [setV, updateF]
  · intro k hk
    simp [setV, updateF, hk]

/-- Claim C3 witness: the amended statement at I=0xF80, V0=0x40. -/
theorem c3_addi_overflow_amended_witness :
    ∃ w : RunState, execInst ⟨vmC3, 17⟩ 0xF01E 255 0 = some w ∧
      w.vm.i = (vmC3.i + vmC3.v 0) % 65536 ∧
      w.vm.v 15 = (if vmC3.v 0 + (vmC3.i + vmC3.v 0) % 65536 > 0xFFF then 1 else 0) ∧
      (∀ k, k ≠ 15 → w.vm.v k = vmC3.v k) ∧
      w.keyreg = 17 := by
  have h := c3_addi_overflow_amended ⟨vmC3, 17⟩ 0 255 0 (by decide)
  simpa using h

/-! ### Claim C4 -/

/-- Claim C4 counterexample: with I = 4095 and a two-row sprite, the claim
(each of the `height` bytes is read from memory, with only the 64x32 grid
clipping rows) makes the second row visible at pixel (1,0) since the display
has plenty of room, reading the byte at address (4095+1) mod 4096 = 0 per the
spec addressing invariant; the code instead stops its row loop at
`vm->i + row < MEMORY_SIZE` and never draws the second row. -/
theorem c4_draw_counterexample :
    (draw vmC4 0xD012).display 0 0 = true ∧
    (draw vmC4 0xD012).display 1 0 = false ∧
    (drawSpecC4 vmC4 0xD012).display 1 0 = true := by
  exact ⟨by decide, by decide, by decide⟩

/-- Claim C4 (amended): `draw(x, y, height)` XORs sprite rows into the display
at origin (Vx mod 64, Vy mod 32), clipped (not wrapped) at the 64x32 boundary,
and additionally rows whose sprite-byte address `i + row` would reach past the
end of memory (address 4096 or beyond) are skipped: sprite reads are clipped at
the memory end, not wrapped. VF is cleared to 0 before drawing and ends at 1 if
and only if some XOR turned an on-pixel off. The toggled-pixel set and the
collision condition are the predicates `drawMaskB` and `drawCollB`, both of
which draw row `ro` only when `y + ro < 32` and `i + ro < 4096`, with columns
clipped at 64. -/
theorem c4_draw_amended (vm : CHIP8) (inst : Nat) :
    (∀ r c, (draw vm inst).display r c =
        Bool.xor
          (drawMaskB vm.mem vm.i (vm.v (regX inst) % 64) (vm.v (regY inst) % 32)
            (nibD inst) r c)
          (vm.display r c)) ∧
    (draw vm inst).v 15 =
      (if drawCollB vm.mem vm.display vm.i (vm.v (regX inst) % 64)
          (vm.v (regY inst) % 32) (nibD inst) = true then 1 else 0) := by
  exact ⟨fun r c => draw_display vm inst r c, draw_v15 vm inst⟩

/-! ### Claim C5 -/

/-- Claim C5: drawing the same sprite at the same location twice in succession
(the draw instruction names registers other than VF, so both calls use the same
origin) restores every display pixel to its pre-draw state, and each of the two
calls recomputes VF as the collision of the sprite with the display content
that call found. -/
theorem c5_double_draw_restores (vm : CHIP8) (inst : Nat)
    (hX : regX inst ≠ 15) (hY : regY inst ≠ 15) :
    (∀ r c, (draw (draw vm inst) inst).display r c = vm.display r c) ∧
    (draw vm inst).v 15 =
      (if drawCollB vm.mem vm.display vm.i (vm.v (regX inst) % 64)
          (vm.v (regY inst) % 32) (nibD inst) = true then 1 else 0) ∧
    (draw (draw vm inst) inst).v 15 =
      (if drawCollB vm.mem (draw vm inst).display vm.i (vm.v (regX inst) % 64)
          (vm.v (regY inst) % 32) (nibD inst) = true then 1 else 0) := by
  have hmem := draw_mem vm inst
  have hi := draw_i vm inst
  have hvX := draw_v_ne vm inst (regX inst) hX
  have hvY := draw_v_ne vm inst (regY inst) hY
  refine ⟨?_, draw_v15 vm inst, ?_⟩
  · intro r c
    rw [draw_display (draw vm inst) inst r c, draw_display vm inst r c,
        hmem, hi, hvX, hvY]
    cases hm : drawMaskB vm.mem vm.i (vm.v (regX inst) % 64)
        (vm.v (regY inst) % 32) (nibD inst) r c <;>
      cases hd : vm.display r c <;> simp [hm, hd]
  · rw [draw_v15 (draw vm inst) inst, hmem, hi, hvX, hvY]

/-- Claim C5 witness: double-draw of a concrete two-row sprite over a patterned
display restores a probed pixel, and both calls report a collision. -/
theorem c5_double_draw_restores_witness :
    (draw (draw vmC5 0xD012) 0xD012).display 5 10 = vmC5.display 5 10 ∧
    (draw vmC5 0xD012).v 15 = 1 ∧
    (draw (draw vmC5 0xD012) 0xD012).v 15 = 1 := by
  have h := c5_double_draw_restores vmC5 0xD012 (by decide) (by decide)
  exact ⟨h.1 5 10, h.2.1.trans (by decide), h.2.2.trans (by decide)⟩

/-! ### Fetch lemmas -/

lemma fetch_pc (vm : CHIP8) : (fetch vm).1.pc = (vm.pc + 2) % 65536 := by
  unfold fetch
  simp only []
  rw [Nat.mod_add_mod]

lemma fetch_v (vm : CHIP8) : (fetch vm).1.v = vm.v := rfl

lemma fetch_word (vm : CHIP8) :
    (fetch vm).2 =
      (vm.mem (vm.pc % 4096) * 256 + vm.mem ((vm.pc + 1) % 4096)) % 65536 := by
  unfold fetch
  simp only []
  rw [Nat.mod_mod_of_dvd _ (by norm_num : (4096 : Nat) ∣ 65536)]

/-! ### Claim C6 -/

/-- Claim C6: the stack has capacity 5 (`STACK_SIZE`); a subroutine return
(00EE) on an empty stack is the fatal underflow, a subroutine call (2nnn) with
5 entries on the stack is the fatal overflow; otherwise the call pushes the
current PC at the stack pointer and jumps to nnn, and the return pops the saved
address into PC. -/
theorem c6_stack_discipline (rs : RunState) (nnn pressed rnd : Nat) (hn : nnn < 4096) :
    (rs.vm.sp = 0 → execInst rs 0x00EE pressed rnd = none) ∧
    (rs.vm.sp = 5 → execInst rs (0x2000 + nnn) pressed rnd = none) ∧
    (rs.vm.sp < 5 → execInst rs (0x2000 + nnn) pressed rnd =
        some ⟨{ rs.vm with stack := updateF rs.vm.stack rs.vm.sp rs.vm.pc,
                           sp := rs.vm.sp + 1, pc := nnn }, rs.keyreg⟩) ∧
    (0 < rs.vm.sp → execInst rs 0x00EE pressed rnd =
        some ⟨{ rs.vm with sp := rs.vm.sp - 1,
                           pc := rs.vm.stack (rs.vm.sp - 1) }, rs.keyreg⟩) := by
  refine ⟨?_, ?_, ?_, ?_⟩
  · intro h
    rw [execInst_00EE]
    unfold rts
    rw [if_pos h]
    rfl
  · intro h
    rw [execInst_2nnn rs nnn pressed rnd hn]
    unfold call
    rw [if_pos (by omega)]
    rfl
  · intro h
    rw [execInst_2nnn rs nnn pressed rnd hn]
    unfold call
    rw [if_neg (by omega)]
    rfl
  · intro h
    rw [execInst_00EE]
    unfold rts
    rw [if_neg (by omega)]
    rfl

/-- Claim C6 witness: underflow on the empty stack, overflow at 5 entries, and
a successful push at a concrete state. -/
theorem c6_stack_discipline_witness :
    execInst ⟨vmBase, 17⟩ 0x00EE 255 0 = none ∧
    execInst ⟨{ vmBase with sp := 5 }, 17⟩ (0x2000 + 0x300) 255 0 = none ∧
    execInst ⟨vmBase, 17⟩ (0x2000 + 0x300) 255 0 =
      some ⟨{ vmBase with stack := updateF vmBase.stack vmBase.sp vmBase.pc,
                          sp := vmBase.sp + 1, pc := 0x300 }, 17⟩ := by
  have ha := c6_stack_discipline ⟨vmBase, 17⟩ 0x300 255 0 (by norm_num)
  have hb := c6_stack_discipline ⟨{ vmBase with sp := 5 }, 17⟩ 0x300 255 0 (by norm_num)
  exact ⟨ha.1 rfl, hb.2.1 rfl, ha.2.2.1 (by decide)⟩

/-! ### Claim C7 -/

lemma cycle_skip_helper (rs : RunState) (pressed rnd inst : Nat) (cond : Prop)
    [Decidable cond]
    (h : execInst ⟨(fetch rs.vm).1, rs.keyreg⟩ inst pressed rnd =
      some ⟨{ (fetch rs.vm).1 with
                pc := ((fetch rs.vm).1.pc + (if cond then 2 else 0)) % 65536 },
             rs.keyreg⟩)
    (hf : (fetch rs.vm).2 = inst) :
    (cycle rs pressed rnd).map (fun r => r.vm.pc) =
      some ((rs.vm.pc + (if cond then 4 else 2)) % 65536) := by
  simp only [cycle]
  rw [hf, h]
  have hmap : Option.map (fun r : RunState => r.vm.pc)
      (some ⟨{ (fetch rs.vm).1 with
                 pc := ((fetch rs.vm).1.pc + (if cond then 2 else 0)) % 65536 },
              rs.keyreg⟩)
      = some (((fetch rs.vm).1.pc + (if cond then 2 else 0)) % 65536) := rfl
  rw [hmap, fetch_pc]
  by_cases hc : cond
  · rw [if_pos hc, if_pos hc]
    congr 1
    omega
  · rw [if_neg hc, if_neg hc]
    congr 1
    omega

/-- Claim C7: for each conditional skip instruction (3xkk, 4xkk, 5xy0, 9xy0,
Ex9E, ExA1), one fetch-execute cycle advances PC by exactly 4 in total (2 for
the fetch plus 2 for the skip) when the condition holds and by exactly 2 when
it does not, modulo the 16-bit program counter. -/
theorem c7_skip_pc_advance (rs : RunState) (x y kk pressed rnd : Nat)
    (hx : x < 16) (hy : y < 16) (hkk : kk < 256) :
    ((fetch rs.vm).2 = 0x3000 + x * 256 + kk →
      (cycle rs pressed rnd).map (fun r => r.vm.pc) =
        some ((rs.vm.pc + (if rs.vm.v x = kk then 4 else 2)) % 65536)) ∧
    ((fetch rs.vm).2 = 0x4000 + x * 256 + kk →
      (cycle rs pressed rnd).map (fun r => r.vm.pc) =
        some ((rs.vm.pc + (if rs.vm.v x ≠ kk then 4 else 2)) % 65536)) ∧
    ((fetch rs.vm).2 = 0x5000 + x * 256 + y * 16 →
      (cycle rs pressed rnd).map (fun r => r.vm.pc) =
        some ((rs.vm.pc + (if rs.vm.v x = rs.vm.v y then 4 else 2)) % 65536)) ∧
    ((fetch rs.vm).2 = 0x9000 + x * 256 + y * 16 →
      (cycle rs pressed rnd).map (fun r => r.vm.pc) =
        some ((rs.vm.pc + (if rs.vm.v x ≠ rs.vm.v y then 4 else 2)) % 65536)) ∧
    ((fetch rs.vm).2 = 0xE000 + x * 256 + 0x9E →
      (cycle rs pressed rnd).map (fun r => r.vm.pc) =
        some ((rs.vm.pc + (if rs.vm.v x = pressed then 4 else 2)) % 65536)) ∧
    ((fetch rs.vm).2 = 0xE000 + x * 256 + 0xA1 →
      (cycle rs pressed rnd).map (fun r => r.vm.pc) =
        some ((rs.vm.pc + (if rs.vm.v x ≠ pressed then 4 else 2)) % 65536)) := by
  refine ⟨?_, ?_, ?_, ?_, ?_, ?_⟩
  · intro hf
    exact cycle_skip_helper rs pressed rnd _ _
      (execInst_3xkk ⟨(fetch rs.vm).1, rs.keyreg⟩ x kk pressed rnd hx hkk) hf
  · intro hf
    exact cycle_skip_helper rs pressed rnd _ _
      (execInst_4xkk ⟨(fetch rs.vm).1, rs.keyreg⟩ x kk pressed rnd hx hkk) hf
  · intro hf
    exact cycle_skip_helper rs pressed rnd _ _
      (execInst_5xy0 ⟨(fetch rs.vm).1, rs.keyreg⟩ x y pressed rnd hx hy) hf
  · intro hf
    exact cycle_skip_helper rs pressed rnd _ _
      (execInst_9xy0 ⟨(fetch rs.vm).1, rs.keyreg⟩ x y pressed rnd hx hy) hf
  · intro hf
    exact cycle_skip_helper rs pressed rnd _ _
      (execInst_Ex9E ⟨(fetch rs.vm).1, rs.keyreg⟩ x pressed rnd hx) hf
  · intro hf
    exact cycle_skip_helper rs pressed rnd _ _
      (execInst_ExA1 ⟨(fetch rs.vm).1, rs.keyreg⟩ x pressed rnd hx) hf

/-- Claim C7 witness: a cycle on instruction 0x3105 with V1 = 5 (condition
holds: PC 512 becomes 516) and, at a state with V1 = 0, condition fails (PC
becomes 514). -/
theorem c7_skip_pc_advance_witness :
    (cycle ⟨vmC7, 17⟩ 255 0).map (fun r => r.vm.pc) = some 516 ∧
    (cycle ⟨{ vmC7 with v := fun _ => 0 }, 17⟩ 255 0).map (fun r => r.vm.pc) = some 514 := by
  have h1 := (c7_skip_pc_advance ⟨vmC7, 17⟩ 1 0 5 255 0 (by norm_num) (by norm_num)
    (by norm_num)).1 (by decide)
  have h2 := (c7_skip_pc_advance ⟨{ vmC7 with v := fun _ => 0 }, 17⟩ 1 0 5 255 0
    (by norm_num) (by norm_num) (by norm_num)).1 (by decide)
  exact ⟨h1.trans (by decide), h2.trans (by decide)⟩

/-! ### Lemmas about `bcd`, `regdmp`, `regld` and memory addressing -/

lemma mod_addr_ne {i p q : Nat} (hp : p < 4096) (hq : q < 4096) (hne : p ≠ q) :
    (i + p) % 4096 ≠ (i + q) % 4096 := by omega

lemma bcd_mem (vm : CHIP8) (vb : Nat) :
    (bcd vm vb).mem ((vm.i + 0) % 4096) = vb / 100 ∧
    (bcd vm vb).mem ((vm.i + 1) % 4096) = vb % 100 / 10 ∧
    (bcd vm vb).mem ((vm.i + 2) % 4096) = vb % 10 ∧
    (∀ a, a ≠ (vm.i + 0) % 4096 → a ≠ (vm.i + 1) % 4096 → a ≠ (vm.i + 2) % 4096 →
      (bcd vm vb).mem a = vm.mem a) := by
  have h01 : (vm.i + 0) % 4096 ≠ (vm.i + 1) % 4096 := by omega
  have h02 : (vm.i + 0) % 4096 ≠ (vm.i + 2) % 4096 := by omega
  have h12 : (vm.i + 1) % 4096 ≠ (vm.i + 2) % 4096 := by omega
  refine ⟨?_, ?_, ?_, ?_⟩
  · show updateF _ _ _ _ = _
    rw [updateF_ne _ _ _ _ h02, updateF_ne _ _ _ _ h01, updateF_self]
  · show updateF _ _ _ _ = _
    rw [updateF_ne _ _ _ _ h12, updateF_self]
  · show updateF _ _ _ _ = _
    rw [updateF_self]
    omega
  · intro a ha0 ha1 ha2
    show updateF _ _ _ _ = _
    rw [updateF_ne _ _ _ _ ha2, updateF_ne _ _ _ _ ha1, updateF_ne _ _ _ _ ha0]

lemma regdmpAux_spec : ∀ rem k vm, k + rem ≤ 4096 →
    (∀ t, t < rem →
      (regdmpAux vm k rem).mem ((vm.i + (k + t)) % 4096) = vm.v (k + t)) ∧
    (∀ a, (∀ t, t < rem → a ≠ (vm.i + (k + t)) % 4096) →
      (regdmpAux vm k rem).mem a = vm.mem a) ∧
    (regdmpAux vm k rem).i = vm.i ∧
    (regdmpAux vm k rem).v = vm.v := by
  intro rem
  induction rem with
  | zero =>
    intro k vm _
    exact ⟨fun t ht => absurd ht (by omega), fun a _ => rfl, rfl, rfl⟩
  | succ n ih =>
    intro k vm hb
    have hstep : regdmpAux vm k (n + 1) =
        regdmpAux { vm with mem := updateF vm.mem ((vm.i + k) % 4096) (vm.v k) }
          (k + 1) n := rfl
    obtain ⟨ih1, ih2, ih3, ih4⟩ :=
      ih (k + 1) { vm with mem := updateF vm.mem ((vm.i + k) % 4096) (vm.v k) }
        (by omega)
    rw [hstep]
    refine ⟨?_, ?_, ih3, ih4⟩
    · intro t ht
      cases t with
      | zero =>
        rw [ih2 ((vm.i + (k + 0)) % 4096) ?_]
        · show updateF _ _ _ _ = _
          have : k + 0 = k := by omega
          rw [this, updateF_self]
        · intro u hu
          show (vm.i + (k + 0)) % 4096 ≠ (vm.i + (k + 1 + u)) % 4096
          exact mod_addr_ne (by omega) (by omega) (by omega)
      | succ u =>
        have h1 := ih1 u (by omega)
        have he : k + 1 + u = k + (u + 1) := by omega
        rw [he] at h1
        exact h1
    · intro a ha
      rw [ih2 a ?_]
      · show updateF _ _ _ _ = _
        refine updateF_ne _ _ _ _ ?_
        have h0 := ha 0 (by omega)
        simpa using h0
      · intro u hu
        show a ≠ (vm.i + (k + 1 + u)) % 4096
        have hu1 := ha (u + 1) (by omega)
        have he : k + (u + 1) = k + 1 + u := by omega
        rw [he] at hu1
        exact hu1

lemma regldAux_spec : ∀ rem k vm,
    (∀ t, t < rem →
      (regldAux vm k rem).v (k + t) = vm.mem ((vm.i + (k + t)) % 4096)) ∧
    (∀ j, (∀ t, t < rem → j ≠ k + t) → (regldAux vm k rem).v j = vm.v j) ∧
    (regldAux vm k rem).mem = vm.mem ∧
    (regldAux vm k rem).i = vm.i := by
  intro rem
  induction rem with
  | zero =>
    intro k vm
    exact ⟨fun t ht => absurd ht (by omega), fun j _ => rfl, rfl, rfl⟩
  | succ n ih =>
    intro k vm
    have hstep : regldAux vm k (n + 1) =
        regldAux (setV vm k (vm.mem ((vm.i + k) % 4096))) (k + 1) n := rfl
    obtain ⟨ih1, ih2, ih3, ih4⟩ := ih (k + 1) (setV vm k (vm.mem ((vm.i + k) % 4096)))
    rw [hstep]
    refine ⟨?_, ?_, ih3, ih4⟩
    · intro t ht
      cases t with
      | zero =>
        rw [ih2 (k + 0) ?_]
        · show updateF _ _ _ _ = _
          simp [updateF]
        · intro u hu
          omega
      | succ u =>
        have h1 := ih1 u (by omega)
        have he : k + 1 + u = k + (u + 1) := by omega
        rw [he] at h1
        exact h1
    · intro j hj
      rw [ih2 j ?_]
      · show updateF _ _ _ _ = _
        refine updateF_ne _ _ _ _ ?_
        have := hj 0 (by omega)
        omega
      · intro u hu
        have := hj (u + 1) (by omega)
        omega

lemma drawMaskB_congr {m1 m2 : Nat → Nat} (h : ∀ a, a < 4096 → m1 a = m2 a)
    (i x y n r c : Nat) :
    drawMaskB m1 i x y n r c = drawMaskB m2 i x y n r c := by
  unfold drawMaskB rowMaskB
  apply existsFromB_congr
  intro ro _ _
  by_cases hro : i + ro < 4096
  · rw [h _ hro]
  · simp [hro]

lemma drawCollB_congr {m1 m2 : Nat → Nat} (h : ∀ a, a < 4096 → m1 a = m2 a)
    (d : Nat → Nat → Bool) (i x y n : Nat) :
    drawCollB m1 d i x y n = drawCollB m2 d i x y n := by
  unfold drawCollB rowCollB
  apply existsFromB_congr
  intro ro _ _
  by_cases hro : i + ro < 4096
  · rw [h _ hro]
  · simp [hro]

/-! ### Claim C8 -/

/-- Claim C8 counterexample: with `pc` = 4095 the claim (the program counter
itself wraps modulo the memory size as it advances by 2 per fetch) requires
`pc` to become (4095+2) mod 4096 = 1; the code leaves `pc` = 4097, because the
`uint16_t` program counter wraps modulo 65536 and only the effective byte
addresses are reduced modulo 4096. -/
theorem c8_address_wrap_counterexample :
    (fetch vmC8).1.pc = 4097 ∧
    (4095 + 2) % 4096 = 1 ∧
    (fetch vmC8).1.pc ≠ (vmC8.pc + 2) % 4096 := by
  exact ⟨by decide, by decide, by decide⟩

/-- Claim C8 (amended): instruction fetch, BCD store, and register dump/load
address memory at `(base + offset) mod 4096`, so none of them reaches outside
the memory array; `draw` reads sprite bytes only below address 4096 (rows past
the end of memory are skipped rather than wrapped, so its output only depends
on memory below 4096); and the program counter advances by 2 per fetch modulo
2^16 (not modulo the memory size), with each fetched byte address reduced
modulo 4096. -/
theorem c8_address_wrap_amended (vm : CHIP8) (vx vb inst : Nat) (hvx : vx < 16)
    (m1 m2 : Nat → Nat) (hagree : ∀ a, a < 4096 → m1 a = m2 a) :
    (fetch vm).1.pc = (vm.pc + 2) % 65536 ∧
    (fetch vm).2 =
      (vm.mem (vm.pc % 4096) * 256 + vm.mem ((vm.pc + 1) % 4096)) % 65536 ∧
    (bcd vm vb).mem ((vm.i + 0) % 4096) = vb / 100 ∧
    (bcd vm vb).mem ((vm.i + 1) % 4096) = vb % 100 / 10 ∧
    (bcd vm vb).mem ((vm.i + 2) % 4096) = vb % 10 ∧
    (∀ a, a ≠ (vm.i + 0) % 4096 → a ≠ (vm.i + 1) % 4096 → a ≠ (vm.i + 2) % 4096 →
      (bcd vm vb).mem a = vm.mem a) ∧
    (∀ k, k ≤ vx → (regdmp vm vx).mem ((vm.i + k) % 4096) = vm.v k) ∧
    (∀ a, (∀ k, k ≤ vx → a ≠ (vm.i + k) % 4096) → (regdmp vm vx).mem a = vm.mem a) ∧
    (∀ k, k ≤ vx → (regld vm vx).v k = vm.mem ((vm.i + k) % 4096)) ∧
    (∀ j, (∀ k, k ≤ vx → j ≠ k) → (regld vm vx).v j = vm.v j) ∧
    (∀ r c, (draw { vm with mem := m1 } inst).display r c =
        (draw { vm with mem := m2 } inst).display r c) ∧
    (draw { vm with mem := m1 } inst).v 15 = (draw { vm with mem := m2 } inst).v 15 := by
  obtain ⟨hb0, hb1, hb2, hbf⟩ := bcd_mem vm vb
  obtain ⟨hd1, hd2, _, _⟩ := regdmpAux_spec (vx + 1) 0 vm (by omega)
  obtain ⟨hl1, hl2, _, _⟩ := regldAux_spec (vx + 1) 0 vm
  refine ⟨fetch_pc vm, fetch_word vm, hb0, hb1, hb2, hbf, ?_, ?_, ?_, ?_, ?_, ?_⟩
  · intro k hk
    have h := hd1 k (by omega)
    simpa using h
  · intro a ha
    exact hd2 a (fun t ht => by simpa using ha t (by omega))
  · intro k hk
    have h := hl1 k (by omega)
    simpa using h
  · intro j hj
    exact hl2 j (fun t ht => by simpa using hj t (by omega))
  · intro r c
    rw [draw_display, draw_display]
    have hm : drawMaskB m1 vm.i (vm.v (regX inst) % 64) (vm.v (regY inst) % 32)
        (nibD inst) r c =
      drawMaskB m2 vm.i (vm.v (regX inst) % 64) (vm.v (regY inst) % 32)
        (nibD inst) r c := drawMaskB_congr hagree _ _ _ _ _ _
    exact congrArg (fun z => Bool.xor z (vm.display r c)) hm
  · rw [draw_v15, draw_v15]
    have hm : drawCollB m1 vm.display vm.i (vm.v (regX inst) % 64)
        (vm.v (regY inst) % 32) (nibD inst) =
      drawCollB m2 vm.display vm.i (vm.v (regX inst) % 64)
        (vm.v (regY inst) % 32) (nibD inst) := drawCollB_congr hagree _ _ _ _ _
    rw [hm]

/-- Claim C8 witness: the amended facts at concrete states, including a fetch
at `pc` = 4095, BCD digits of 123 stored at I = 4095 wrapping to address 0, a
register dump at the wrapped address, and a draw whose result ignores memory
above 4095. -/
theorem c8_address_wrap_amended_witness :
    (fetch vmC8).1.pc = (vmC8.pc + 2) % 65536 ∧
    (bcd vmC4 123).mem ((vmC4.i + 0) % 4096) = 1 ∧
    (bcd vmC4 123).mem ((vmC4.i + 2) % 4096) = 3 ∧
    (regdmp vmC4 3).mem ((vmC4.i + 2) % 4096) = vmC4.v 2 ∧
    (regld vmC4 3).v 1 = vmC4.mem ((vmC4.i + 1) % 4096) ∧
    (draw { vmC4 with mem := fun _ => 0 } 0xD011).v 15 =
      (draw { vmC4 with mem := fun a => if a < 4096 then 0 else 9 } 0xD011).v 15 := by
  have hf := c8_address_wrap_amended vmC8 3 123 0xD011 (by norm_num)
    (fun _ => 0) (fun _ => 0) (fun a _ => rfl)
  have h := c8_address_wrap_amended vmC4 3 123 0xD011 (by norm_num)
    (fun _ => 0) (fun a => if a < 4096 then 0 else 9) (fun a ha => by simp [ha])
  refine ⟨hf.1, ?_, ?_, h.2.2.2.2.2.2.1 2 (by norm_num),
    h.2.2.2.2.2.2.2.2.1 1 (by norm_num), h.2.2.2.2.2.2.2.2.2.2.2⟩
  · exact h.2.2.1.trans (by norm_num)
  · exact h.2.2.2.2.1.trans (by norm_num)

/-! ### Claim C9: wait-for-key across ticks -/

lemma execBatch_fix (rs : RunState) (pressed rnd : Nat)
    (h : cycle rs pressed rnd = some rs) :
    ∀ m, execBatch rs pressed rnd m = some rs := by
  intro m
  induction m with
  | zero => rfl
  | succ n ih =>
    simp only [execBatch]
    rw [h]
    exact ih

lemma cycle_wait (rs : RunState) (x pressed rnd : Nat) (hx : x < 16)
    (hpc : rs.vm.pc + 1 < 4096)
    (hm0 : rs.vm.mem rs.vm.pc = 0xF0 + x)
    (hm1 : rs.vm.mem (rs.vm.pc + 1) = 0x0A) :
    cycle rs pressed rnd = some ⟨rs.vm, x⟩ := by
  simp only [cycle]
  have e1 : rs.vm.pc % 4096 = rs.vm.pc := Nat.mod_eq_of_lt (by omega)
  have e2 : (rs.vm.pc + 1) % 4096 = rs.vm.pc + 1 := Nat.mod_eq_of_lt (by omega)
  have hw : (fetch rs.vm).2 = 0xF000 + x * 256 + 0x0A := by
    rw [fetch_word, e1, e2, hm0, hm1]
    have he : (0xF0 + x) * 256 + 0x0A = 0xF000 + x * 256 + 0x0A := by ring
    rw [he]
    exact Nat.mod_eq_of_lt (by omega)
  rw [hw, execInst_Fx0A ⟨(fetch rs.vm).1, rs.keyreg⟩ x pressed rnd hx]
  have hpc2 : ((fetch rs.vm).1.pc + 65536 - 2) % 65536 = rs.vm.pc := by
    rw [fetch_pc]
    omega
  rw [hpc2]
  rfl

lemma tick_wait (rs : RunState) (x rnd : Nat) (hx : x < 16) (hkey : rs.keyreg = x)
    (hpc : rs.vm.pc + 1 < 4096)
    (hm0 : rs.vm.mem rs.vm.pc = 0xF0 + x)
    (hm1 : rs.vm.mem (rs.vm.pc + 1) = 0x0A) :
    tick rs 255 rnd = some ⟨decTimers rs.vm, x⟩ := by
  have hrs : (⟨rs.vm, x⟩ : RunState) = rs := by rw [← hkey]
  have hcyc : cycle rs 255 rnd = some rs := by
    conv_rhs => rw [← hrs]
    exact cycle_wait rs x 255 rnd hx hpc hm0 hm1
  simp only [tick]
  have hno : ¬ (rs.keyreg < 16 ∧ (255 : Nat) ≠ NOKEY) := by
    intro hh
    exact hh.2 rfl
  rw [if_neg hno, execBatch_fix _ _ _ hcyc _]
  show some (⟨decTimers rs.vm, rs.keyreg⟩ : RunState) = some ⟨decTimers rs.vm, x⟩
  rw [hkey]

lemma ticks_wait (rs : RunState) (ps : Nat → Nat) (rnd x T : Nat) (hx : x < 16)
    (hkey : rs.keyreg = x) (hpc : rs.vm.pc + 1 < 4096)
    (hm0 : rs.vm.mem rs.vm.pc = 0xF0 + x)
    (hm1 : rs.vm.mem (rs.vm.pc + 1) = 0x0A)
    (hpoll : ∀ t, t < T → ps t = 255) :
    ∀ t, t ≤ T → ∃ w : RunState, ticks rs ps rnd t = some w ∧
      w.vm.pc = rs.vm.pc ∧ w.vm.mem = rs.vm.mem ∧ w.vm.v = rs.vm.v ∧
      w.vm.display = rs.vm.display ∧ w.keyreg = x := by
  intro t
  induction t with
  | zero =>
    intro _
    exact ⟨rs, rfl, rfl, rfl, rfl, rfl, hkey⟩
  | succ n ih =>
    intro hn
    obtain ⟨w, hw, hwpc, hwmem, hwv, hwdisp, hwkey⟩ := ih (by omega)
    have hps : ps n = 255 := hpoll n (by omega)
    have htick : tick w 255 rnd = some ⟨decTimers w.vm, x⟩ :=
      tick_wait w x rnd hx hwkey (by rw [hwpc]; exact hpc)
        (by rw [hwmem, hwpc]; exact hm0) (by rw [hwmem, hwpc]; exact hm1)
    refine ⟨⟨decTimers w.vm, x⟩, ?_, ?_, ?_, ?_, ?_, rfl⟩
    · simp only [ticks]
      rw [hw, hps]
      exact htick
    · show (decTimers w.vm).pc = rs.vm.pc
      exact hwpc
    · show (decTimers w.vm).mem = rs.vm.mem
      exact hwmem
    · show (decTimers w.vm).v = rs.vm.v
      exact hwv
    · show (decTimers w.vm).display = rs.vm.display
      exact hwdisp

lemma cycle_jump (rs : RunState) (pressed rnd : Nat)
    (hpc : rs.vm.pc + 1 < 4096)
    (hm0 : rs.vm.mem rs.vm.pc = 0x10 + rs.vm.pc / 256)
    (hm1 : rs.vm.mem (rs.vm.pc + 1) = rs.vm.pc % 256) :
    cycle rs pressed rnd = some rs := by
  simp only [cycle]
  have e1 : rs.vm.pc % 4096 = rs.vm.pc := Nat.mod_eq_of_lt (by omega)
  have e2 : (rs.vm.pc + 1) % 4096 = rs.vm.pc + 1 := Nat.mod_eq_of_lt (by omega)
  have hw : (fetch rs.vm).2 = 0x1000 + rs.vm.pc := by
    rw [fetch_word, e1, e2, hm0, hm1]
    have he : (0x10 + rs.vm.pc / 256) * 256 + rs.vm.pc % 256 = 0x1000 + rs.vm.pc := by
      omega
    rw [he]
    exact Nat.mod_eq_of_lt (by omega)
  rw [hw, execInst_1nnn ⟨(fetch rs.vm).1, rs.keyreg⟩ rs.vm.pc pressed rnd (by omega)]
  rfl

lemma tick_deliver (rs : RunState) (x k rnd : Nat) (hx : x < 16) (hk : k < 16)
    (hkey : rs.keyreg = x) (hpc : rs.vm.pc + 3 < 4096)
    (hm2 : rs.vm.mem (rs.vm.pc + 2) = 0x10 + (rs.vm.pc + 2) / 256)
    (hm3 : rs.vm.mem (rs.vm.pc + 3) = (rs.vm.pc + 2) % 256) :
    tick rs k rnd =
      some ⟨decTimers { rs.vm with v := updateF rs.vm.v x k, pc := rs.vm.pc + 2 },
        17⟩ := by
  simp only [tick]
  have hyes : rs.keyreg < 16 ∧ (k : Nat) ≠ NOKEY := by
    refine ⟨by rw [hkey]; exact hx, ?_⟩
    unfold NOKEY
    omega
  rw [if_pos hyes, hkey]
  have hpcm : (rs.vm.pc + 2) % 65536 = rs.vm.pc + 2 := Nat.mod_eq_of_lt (by omega)
  rw [hpcm]
  have hcyc : cycle ⟨{ rs.vm with v := updateF rs.vm.v x k, pc := rs.vm.pc + 2 }, 17⟩ k rnd
      = some ⟨{ rs.vm with v := updateF rs.vm.v x k, pc := rs.vm.pc + 2 }, 17⟩ := by
    refine cycle_jump _ k rnd ?_ ?_ ?_
    · show rs.vm.pc + 2 + 1 < 4096
      omega
    · show rs.vm.mem (rs.vm.pc + 2) = 0x10 + (rs.vm.pc + 2) / 256
      exact hm2
    · show rs.vm.mem (rs.vm.pc + 2 + 1) = (rs.vm.pc + 2) % 256
      have he : rs.vm.pc + 2 + 1 = rs.vm.pc + 3 := by omega
      rw [he]
      exact hm3
  rw [execBatch_fix _ _ _ hcyc _]
  rfl

/-- Claim C9: with a wait-for-key Fx0A pending at PC (the pending register is
x) and a jump-to-self following it, the PC does not advance across ticks while
each tick polls no key (255); on the first tick whose poll yields a logical key
index k < 16, k is written into Vx and the PC advances past the wait
instruction (to PC+2, where the batch then executes the jump to itself). -/
theorem c9_wait_key (rs : RunState) (ps : Nat → Nat) (rnd x k T : Nat)
    (hx : x < 16) (hk : k < 16) (hkey : rs.keyreg = x)
    (hpc : rs.vm.pc + 3 < 4096)
    (hm0 : rs.vm.mem rs.vm.pc = 0xF0 + x)
    (hm1 : rs.vm.mem (rs.vm.pc + 1) = 0x0A)
    (hm2 : rs.vm.mem (rs.vm.pc + 2) = 0x10 + (rs.vm.pc + 2) / 256)
    (hm3 : rs.vm.mem (rs.vm.pc + 3) = (rs.vm.pc + 2) % 256)
    (hpoll : ∀ t, t < T → ps t = 255) (hkT : ps T = k) :
    (∀ t, t ≤ T → ∃ w : RunState, ticks rs ps rnd t = some w ∧
        w.vm.pc = rs.vm.pc ∧ w.vm.v = rs.vm.v ∧ w.keyreg = x) ∧
    (∃ w : RunState, ticks rs ps rnd (T + 1) = some w ∧
        w.vm.v x = k ∧ w.vm.pc = rs.vm.pc + 2 ∧ w.keyreg = 17) := by
  have ha := ticks_wait rs ps rnd x T hx hkey (by omega) hm0 hm1 hpoll
  constructor
  · intro t ht
    obtain ⟨w, hw, h1, _, h3, _, h5⟩ := ha t ht
    exact ⟨w, hw, h1, h3, h5⟩
  · obtain ⟨w, hw, hwpc, hwmem, hwv, hwdisp, hwkey⟩ := ha T le_rfl
    have htick := tick_deliver w x k rnd hx hk hwkey (by rw [hwpc]; omega)
      (by rw [hwmem, hwpc]; exact hm2) (by rw [hwmem, hwpc]; exact hm3)
    refine ⟨⟨decTimers { w.vm with v := updateF w.vm.v x k, pc := w.vm.pc + 2 }, 17⟩,
      ?_, ?_, ?_, rfl⟩
    · simp only [ticks]
      rw [hw, hkT]
      exact htick
    · show updateF w.vm.v x k x = k
      exact updateF_self _ _ _
    · show w.vm.pc + 2 = rs.vm.pc + 2
      rw [hwpc]

/-- Claim C9 witness: a wait at 512 with jump-self at 514, polls 255, 255, then
key 7: after two ticks the PC is still 512, after the third tick V0 = 7 and the
PC is 514. -/
theorem c9_wait_key_witness :
    (∃ w : RunState, ticks ⟨vmC9, 0⟩ (fun t => if t < 2 then 255 else 7) 0 2 = some w ∧
        w.vm.pc = vmC9.pc ∧ w.vm.v = vmC9.v ∧ w.keyreg = 0) ∧
    (∃ w : RunState, ticks ⟨vmC9, 0⟩ (fun t => if t < 2 then 255 else 7) 0 3 = some w ∧
        w.vm.v 0 = 7 ∧ w.vm.pc = vmC9.pc + 2 ∧ w.keyreg = 17) := by
  have h := c9_wait_key ⟨vmC9, 0⟩ (fun t => if t < 2 then 255 else 7) 0 0 7 2
    (by norm_num) (by norm_num) rfl (by decide) (by decide) (by decide) (by decide)
    (by decide) (fun t ht => if_pos ht) (by decide)
  exact ⟨h.1 2 le_rfl, h.2⟩

/-! ### Claim C10 -/

/-- Claim C10: the no-key poll result is the byte 255 (`NOKEY`) and quit is 254
(`QUIT`); the key-skip instructions compare Vx directly against the polled
byte, so on a tick with no key pressed Ex9E skips exactly when Vx = 255 and
ExA1 skips exactly when Vx is not 255 — register value 255 aliases with the
no-key sentinel. -/
theorem c10_key_sentinel_alias (vm : CHIP8) (rs : RunState) (ch x rnd : Nat)
    (hx : x < 16) :
    getkeyboard vm none = 255 ∧
    getkeyboard vm (some 0x1b) = 254 ∧
    (ch ≠ 0x1b → strchrIdx vm.keymap (tolowerA ch) = none →
      getkeyboard vm (some ch) = 255) ∧
    execInst rs (0xE000 + x * 256 + 0x9E) 255 rnd =
      some ⟨{ rs.vm with pc := (rs.vm.pc + (if rs.vm.v x = 255 then 2 else 0)) % 65536 },
        rs.keyreg⟩ ∧
    execInst rs (0xE000 + x * 256 + 0xA1) 255 rnd =
      some ⟨{ rs.vm with pc := (rs.vm.pc + (if rs.vm.v x ≠ 255 then 2 else 0)) % 65536 },
        rs.keyreg⟩ := by
  refine ⟨rfl, rfl, ?_, execInst_Ex9E rs x 255 rnd hx, execInst_ExA1 rs x 255 rnd hx⟩
  intro h1 h2
  simp [getkeyboard, h1, h2, NOKEY]

/-- Claim C10 witness: sentinel encodings on a concrete keymap and the skip
aliasing at a state with every register 255. -/
theorem c10_key_sentinel_alias_witness :
    getkeyboard vmBase none = 255 ∧
    getkeyboard vmBase (some 0x1b) = 254 ∧
    getkeyboard vmBase (some 97) = 255 ∧
    (execInst ⟨{ vmBase with v := fun _ => 255 }, 17⟩ 0xE09E 255 0).map
        (fun r => r.vm.pc) = some 514 ∧
    (execInst ⟨{ vmBase with v := fun _ => 255 }, 17⟩ 0xE0A1 255 0).map
        (fun r => r.vm.pc) = some 512 := by
  have h := c10_key_sentinel_alias vmBase ⟨{ vmBase with v := fun _ => 255 }, 17⟩ 97 0 0
    (by norm_num)
  refine ⟨h.1, h.2.1, h.2.2.1 (by norm_num) (by decide), ?_, ?_⟩
  · have h4 := h.2.2.2.1
    rw [show (0xE09E : Nat) = 0xE000 + 0 * 256 + 0x9E by norm_num, h4]
    decide
  · have h5 := h.2.2.2.2
    rw [show (0xE0A1 : Nat) = 0xE000 + 0 * 256 + 0xA1 by norm_num, h5]
    decide
